import Mathlib

/-!
# LinkMe: interaction accounting, first-page cache and CORS predicate

A shallow embedding of

* `internal/repository/dao/interactive.go` (the GORM data-access object for the
  `Interactive`, `UserLikeBiz` and `UserCollectionBiz` tables),
* `internal/domain/post.go` (`Post.Abstract`),
* `internal/repository/cache/post.go` (the Redis first-page cache),
* `ioc/middleware.go` (the CORS `AllowOriginFunc`),

followed by the theorems that settle the specification's claims about them.

Modelling conventions.

* A Go `string` is a sequence of bytes (`GoString`), a `rune` is a natural number.
* A relational table is the list of its rows; `First` orders by primary key.
* `time.Now().UnixMilli()` is an argument `now` of every operation that reads the clock.
* A storage or cache command can fail for reasons outside the program (connection,
  timeout, ...): every command takes a `Fault`, `none` when the engine carries it out and
  `some code` when it fails with that error.
* `int64` columns are integers; the SQL engine rejects an arithmetic result outside the
  signed 64-bit range with an out-of-range error instead of wrapping.
-/

namespace LinkMe

/-! ## Go values -/

/-- A Go `string`: an immutable sequence of bytes, not necessarily valid UTF-8. -/
abbrev GoString := List (Fin 256)

/-- Go's `byte(n)` conversion: keeps the low eight bits. -/
def byte (n : Nat) : Fin 256 := ⟨n % 256, Nat.mod_lt n (by decide)⟩

/-- A Go string literal made of ASCII characters. -/
def lit (s : String) : GoString := s.data.map (fun c => byte c.toNat)

/-! ## Errors -/

/-- The errors the data-access object can hand back. -/
inductive DBError where
  /-- `gorm.ErrRecordNotFound`, returned by `First` when no row matches. -/
  | ErrRecordNotFound
  /-- A primary-key or unique-index violation on a plain `INSERT`. -/
  | duplicateKey
  /-- An arithmetic result outside the signed 64-bit range of a `bigint` column. -/
  | outOfRange
  /-- Any other failure of the storage engine (connection, timeout, ...). -/
  | storage (code : Nat)
  deriving DecidableEq, Repr

/-- A Go `error` value of the data-access object; `none` is `nil`. -/
abbrev GoError := Option DBError

/-- An externally caused failure of one command; `none` means the command is carried out. -/
abbrev Fault := Option Nat

/-- How a call of a data-access method ends: `nil`, an error value, or a run-time panic. -/
inductive Ret where
  | ok
  | err (e : DBError)
  | panic
  deriving DecidableEq, Repr

/-- Turns a Go `error` into the way the call ends. -/
def Ret.ofError : GoError → Ret
  | none => Ret.ok
  | some e => Ret.err e

/-! ## Tables (`interactive.go`, lines 14-76) -/

def StatusLiked : Int := 1
def StatusUnliked : Int := 0
def StatusCollection : Int := 1
def StatusUnCollection : Int := 0

structure UserLikeBiz where
  ID : Int
  Uid : Int
  BizID : Nat
  BizName : GoString
  Status : Int
  UpdateTime : Int
  CreateTime : Int
  Deleted : Bool
  deriving DecidableEq, Repr

structure UserCollectionBiz where
  ID : Int
  Uid : Int
  BizID : Nat
  BizName : GoString
  Status : Int
  CollectionId : Int
  UpdateTime : Int
  CreateTime : Int
  Deleted : Bool
  deriving DecidableEq, Repr

structure Interactive where
  ID : Int
  BizID : Nat
  BizName : GoString
  ReadCount : Int
  LikeCount : Int
  CollectCount : Int
  UpdateTime : Int
  CreateTime : Int
  deriving DecidableEq, Repr

/-- The zero value of `UserLikeBiz` (`var lb UserLikeBiz`). -/
def UserLikeBiz.zero : UserLikeBiz := ⟨0, 0, 0, [], 0, 0, 0, false⟩

/-- The zero value of `UserCollectionBiz`. -/
def UserCollectionBiz.zero : UserCollectionBiz := ⟨0, 0, 0, [], 0, 0, 0, 0, false⟩

/-- The zero value of `Interactive`. -/
def Interactive.zero : Interactive := ⟨0, 0, [], 0, 0, 0, 0, 0⟩

/-- The database the object works on (`i.db`): the three tables. -/
structure DB where
  interactives : List Interactive
  userLikeBizs : List UserLikeBiz
  userCollectionBizs : List UserCollectionBiz
  deriving DecidableEq, Repr

/-- The store with no rows. -/
def DB.empty : DB := ⟨[], [], []⟩

/-! ## The storage primitives the object calls -/

def int64Max : Int := 2 ^ 63 - 1
def int64Min : Int := -(2 ^ 63)

/-- Whether an integer fits a signed `bigint` column. -/
def inInt64 (x : Int) : Bool := decide (int64Min ≤ x) && decide (x ≤ int64Max)

/-- The row with the least primary key, the earliest one on a tie. -/
def minByID {α : Type} (ID : α → Int) : List α → Option α
  | [] => none
  | r :: rs =>
    match minByID ID rs with
    | none => some r
    | some m => if ID r ≤ ID m then some r else some m

/-- The statement `Where(p).First(&dst)`: the matching row with the least primary key, or
`ErrRecordNotFound`; `dst` keeps its zero value unless a row is found. -/
def gormFirst {α : Type} (ID : α → Int) (zero : α) (f : Fault) (p : α → Bool) (t : List α) :
    α × GoError :=
  match f with
  | some c => (zero, some (DBError.storage c))
  | none =>
    match minByID ID (t.filter p) with
    | some r => (r, none)
    | none => (zero, some DBError.ErrRecordNotFound)

/-- The value `AUTO_INCREMENT` gives a new row: above every key in use, and at least 1. -/
def nextID : List Int → Int
  | [] => 1
  | i :: is => max (i + 1) (nextID is)

/-- The statement `Create(&v)` on a table whose only unique key is the primary key: a zero
`ID` is assigned by the engine, a non-zero one is taken as given and must be unused. -/
def gormCreate {α : Type} (ID : α → Int) (setID : Int → α → α) (f : Fault) (v : α)
    (t : List α) : List α × GoError :=
  match f with
  | some c => (t, some (DBError.storage c))
  | none =>
    if ID v = 0 then (t ++ [setID (nextID (t.map ID)) v], none)
    else if t.any (fun r => decide (ID r = ID v)) then (t, some DBError.duplicateKey)
    else (t ++ [v], none)

/-- The statement `Save(&v)`: with a zero primary key it is `Create`; otherwise every column
of the row with that key is overwritten, and the row is inserted when no row has the key. -/
def gormSave {α : Type} (ID : α → Int) (setID : Int → α → α) (f : Fault) (v : α)
    (t : List α) : List α × GoError :=
  match f with
  | some c => (t, some (DBError.storage c))
  | none =>
    if ID v = 0 then (t ++ [setID (nextID (t.map ID)) v], none)
    else if t.any (fun r => decide (ID r = ID v)) then
      (t.map (fun r => if ID r = ID v then v else r), none)
    else (t ++ [v], none)

/-- The statement `Model(&T{}).Where(p).Updates(...)`: every matching row is rewritten by
`upd`; matching no row is not an error. The statement fails as a whole, changing nothing,
when a rewritten row would not fit its columns (`fits`). -/
def gormUpdates {α : Type} (f : Fault) (p : α → Bool) (upd : α → α) (fits : α → Bool)
    (t : List α) : List α × GoError :=
  match f with
  | some c => (t, some (DBError.storage c))
  | none =>
    if (t.filter p).all (fun r => fits (upd r)) then
      (t.map (fun r => if p r then upd r else r), none)
    else (t, some DBError.outOfRange)

/-- Whether a row of `interactives` holds the unique key `biz_type_id` of `v`. -/
def sameBiz (bizName : GoString) (bizID : Nat) (r : Interactive) : Bool :=
  decide (r.BizName = bizName) && decide (r.BizID = bizID)

/-- Whether the three counters of a row fit their columns. -/
def Interactive.fits (r : Interactive) : Bool :=
  inInt64 r.ReadCount && inInt64 r.LikeCount && inInt64 r.CollectCount

/-- The statement `Clauses(clause.OnConflict{DoUpdates: ...}).Create(&v)` on `interactives`
(`INSERT ... ON DUPLICATE KEY UPDATE`): `v` always has `ID` zero, so the only key that can
collide is `biz_type_id (biz_id, biz_name)`. Without a collision the row is inserted under
a fresh `ID`; with one, the row holding the key is rewritten by `upd`. -/
def gormUpsert (f : Fault) (v : Interactive) (upd : Interactive → Interactive)
    (t : List Interactive) : List Interactive × GoError :=
  match f with
  | some c => (t, some (DBError.storage c))
  | none =>
    if t.any (sameBiz v.BizName v.BizID) then
      gormUpdates none (sameBiz v.BizName v.BizID) upd Interactive.fits t
    else (t ++ [{ v with ID := nextID (t.map (fun r => r.ID)) }], none)

/-- The faults of the commands of one transaction: opening it, each statement of its body
by position, and committing it. -/
structure Faults where
  begin : Fault
  stmt : Nat → Fault
  commit : Fault

/-- The schedule in which the engine carries out every command. -/
def Faults.none : Faults := ⟨Option.none, fun _ => Option.none, Option.none⟩

/-- The call `db.Transaction(fc)`: `fc` runs on the database; when it returns `nil` the
transaction is committed, when it returns an error or panics the deferred rollback restores
the database and the error is returned (the panic goes on). -/
def Transaction (fs : Faults) (fc : DB → DB × Ret) (db : DB) : DB × Ret :=
  match fs.begin with
  | some c => (db, Ret.err (DBError.storage c))
  | Option.none =>
    match fc db with
    | (db', Ret.ok) =>
      (match fs.commit with
       | some c => (db, Ret.err (DBError.storage c))
       | Option.none => (db', Ret.ok))
    | (_, r) => (db, r)

/-! ## The data-access object (`interactive.go`, lines 85-280) -/

/-- The predicate `uid = ? AND biz_id = ? AND biz_name = ?` on `user_like_bizs`. -/
def likeOf (uid : Int) (bizID : Nat) (bizName : GoString) (r : UserLikeBiz) : Bool :=
  decide (r.Uid = uid) && decide (r.BizID = bizID) && decide (r.BizName = bizName)

/-- The predicate `uid = ? AND biz_id = ? AND biz_name = ?` on `user_collection_bizs`. -/
def collectionOf (uid : Int) (bizID : Nat) (bizName : GoString) (r : UserCollectionBiz) :
    Bool :=
  decide (r.Uid = uid) && decide (r.BizID = bizID) && decide (r.BizName = bizName)

/-- The predicate `uid = ? AND biz_id = ? AND biz_name = ? AND collection_id = ?`. -/
def collectionIn (uid : Int) (bizID : Nat) (bizName : GoString) (collectionId : Int)
    (r : UserCollectionBiz) : Bool :=
  collectionOf uid bizID bizName r && decide (r.CollectionId = collectionId)

/-- `IncrReadCnt` (lines 90-107): one upsert, outside any transaction. -/
def IncrReadCnt (f : Fault) (now : Int) (biz : GoString) (postId : Nat) (db : DB) :
    DB × Ret :=
  let interactive : Interactive :=
    { Interactive.zero with
      BizName := biz, BizID := postId, ReadCount := 1, CreateTime := now, UpdateTime := now }
  let res := gormUpsert f interactive
    (fun r => { r with ReadCount := r.ReadCount + 1, UpdateTime := now }) db.interactives
  ({ db with interactives := res.1 }, Ret.ofError res.2)

/-- The loop of `BatchIncrReadCnt` (lines 113-118) from index `j` on, over the rest of
`biz`. Call `j` reads the clock (`nows j`) and has its own fault; `postIds[j]` panics when
`postIds` is shorter than `biz`. -/
def batchLoop (fs : Nat → Fault) (nows : Nat → Int) (postIds : List Nat) :
    List GoString → Nat → DB → DB × Ret
  | [], _, tx => (tx, Ret.ok)
  | b :: rest, j, tx =>
    match postIds[j]? with
    | none => (tx, Ret.panic)
    | some postId =>
      match IncrReadCnt (fs j) (nows j) b postId tx with
      | (tx', Ret.ok) => batchLoop fs nows postIds rest (j + 1) tx'
      | (tx', r) => (tx', r)

/-- `BatchIncrReadCnt` (lines 109-121): the loop inside one transaction. -/
def BatchIncrReadCnt (fs : Faults) (nows : Nat → Int) (biz : List GoString)
    (postIds : List Nat) (db : DB) : DB × Ret :=
  Transaction fs (fun tx => batchLoop fs.stmt nows postIds biz 0 tx) db

/-- `InsertLikeInfo` (lines 124-166). Statement 0 is the lookup, statement 1 the `Create` or
the `Save`, statement 2 the upsert of the counter. -/
def InsertLikeInfo (fs : Faults) (now : Int) (lb : UserLikeBiz) (db : DB) : DB × Ret :=
  Transaction fs (fun tx =>
    let found := gormFirst UserLikeBiz.ID UserLikeBiz.zero (fs.stmt 0)
      (likeOf lb.Uid lb.BizID lb.BizName) tx.userLikeBizs
    let existingLike := found.1
    let written : List UserLikeBiz × GoError :=
      match found.2 with
      | some err =>
        if err ≠ DBError.ErrRecordNotFound then (tx.userLikeBizs, some err)
        else
          gormCreate UserLikeBiz.ID (fun i r => { r with ID := i }) (fs.stmt 1)
            { lb with CreateTime := now, UpdateTime := now, Status := StatusLiked }
            tx.userLikeBizs
      | none =>
        gormSave UserLikeBiz.ID (fun i r => { r with ID := i }) (fs.stmt 1)
          { existingLike with Status := StatusLiked, UpdateTime := now } tx.userLikeBizs
    match written.2 with
    | some er => (tx, Ret.err er)
    | none =>
      let res := gormUpsert (fs.stmt 2)
        { Interactive.zero with
          BizName := lb.BizName, BizID := lb.BizID, LikeCount := 1, UpdateTime := now,
          CreateTime := now }
        (fun r => { r with LikeCount := r.LikeCount + 1, UpdateTime := now })
        tx.interactives
      ({ tx with userLikeBizs := written.1, interactives := res.1 }, Ret.ofError res.2)) db

/-- `DeleteLikeInfo` (lines 169-186). Statement 0 rewrites the like rows, statement 1 the
counter. -/
def DeleteLikeInfo (fs : Faults) (now : Int) (lb : UserLikeBiz) (db : DB) : DB × Ret :=
  Transaction fs (fun tx =>
    let upd := gormUpdates (fs.stmt 0) (likeOf lb.Uid lb.BizID lb.BizName)
      (fun r => { r with UpdateTime := now, Status := StatusUnliked }) (fun _ => true)
      tx.userLikeBizs
    match upd.2 with
    | some err => (tx, Ret.err err)
    | none =>
      let res := gormUpdates (fs.stmt 1) (sameBiz lb.BizName lb.BizID)
        (fun r => { r with LikeCount := r.LikeCount - 1, UpdateTime := now })
        Interactive.fits tx.interactives
      ({ tx with userLikeBizs := upd.1, interactives := res.1 }, Ret.ofError res.2)) db

/-- `InsertCollectionBiz` (lines 189-233). The lookup does not look at `collection_id`, and
the `Save` of a row found keeps that row's `CollectionId`. -/
def InsertCollectionBiz (fs : Faults) (now : Int) (cb : UserCollectionBiz) (db : DB) :
    DB × Ret :=
  Transaction fs (fun tx =>
    let found := gormFirst UserCollectionBiz.ID UserCollectionBiz.zero (fs.stmt 0)
      (collectionOf cb.Uid cb.BizID cb.BizName) tx.userCollectionBizs
    let existingCollection := found.1
    let written : List UserCollectionBiz × GoError :=
      match found.2 with
      | some err =>
        if err ≠ DBError.ErrRecordNotFound then (tx.userCollectionBizs, some err)
        else
          gormCreate UserCollectionBiz.ID (fun i r => { r with ID := i }) (fs.stmt 1)
            { cb with CreateTime := now, UpdateTime := now, Status := StatusCollection }
            tx.userCollectionBizs
      | none =>
        gormSave UserCollectionBiz.ID (fun i r => { r with ID := i }) (fs.stmt 1)
          { existingCollection with Status := StatusCollection, UpdateTime := now }
          tx.userCollectionBizs
    match written.2 with
    | some er => (tx, Ret.err er)
    | none =>
      let res := gormUpsert (fs.stmt 2)
        { Interactive.zero with
          BizName := cb.BizName, BizID := cb.BizID, CollectCount := 1, UpdateTime := now,
          CreateTime := now }
        (fun r => { r with CollectCount := r.CollectCount + 1, UpdateTime := now })
        tx.interactives
      ({ tx with userCollectionBizs := written.1, interactives := res.1 },
        Ret.ofError res.2)) db

/-- `DeleteCollectionBiz` (lines 236-254). The predicate of statement 0 includes
`collection_id`. -/
def DeleteCollectionBiz (fs : Faults) (now : Int) (cb : UserCollectionBiz) (db : DB) :
    DB × Ret :=
  Transaction fs (fun tx =>
    let upd := gormUpdates (fs.stmt 0)
      (collectionIn cb.Uid cb.BizID cb.BizName cb.CollectionId)
      (fun r => { r with UpdateTime := now, Status := StatusUnCollection }) (fun _ => true)
      tx.userCollectionBizs
    match upd.2 with
    | some err => (tx, Ret.err err)
    | none =>
      let res := gormUpdates (fs.stmt 1) (sameBiz cb.BizName cb.BizID)
        (fun r => { r with CollectCount := r.CollectCount - 1, UpdateTime := now })
        Interactive.fits tx.interactives
      ({ tx with userCollectionBizs := upd.1, interactives := res.1 },
        Ret.ofError res.2)) db

/-- `GetLikeInfo` (lines 256-260): the predicate adds `status = 1`. -/
def GetLikeInfo (f : Fault) (biz : GoString) (postId : Nat) (uid : Int) (db : DB) :
    UserLikeBiz × GoError :=
  gormFirst UserLikeBiz.ID UserLikeBiz.zero f
    (fun r => decide (r.Uid = uid) && decide (r.BizName = biz) && decide (r.BizID = postId)
      && decide (r.Status = 1)) db.userLikeBizs

/-- `GetCollectInfo` (lines 262-266): the predicate adds `status = 1`. -/
def GetCollectInfo (f : Fault) (biz : GoString) (postId : Nat) (uid : Int) (db : DB) :
    UserCollectionBiz × GoError :=
  gormFirst UserCollectionBiz.ID UserCollectionBiz.zero f
    (fun r => decide (r.Uid = uid) && decide (r.BizName = biz) && decide (r.BizID = postId)
      && decide (r.Status = 1)) db.userCollectionBizs

/-- `Get` (lines 268-272). -/
def Get (f : Fault) (biz : GoString) (postId : Nat) (db : DB) : Interactive × GoError :=
  gormFirst Interactive.ID Interactive.zero f (sameBiz biz postId) db.interactives


/-! ## Observations, reachable states and invariants -/

/-- The read counter a caller sees for `(biz, postId)`: the `ReadCount` of what `Get`
returns, which is the zero value when there is no row. -/
def readCountOf (biz : GoString) (postId : Nat) (db : DB) : Int :=
  (Get none biz postId db).1.ReadCount

/-- The collect counter a caller sees for `(biz, postId)`: the `CollectCount` of what `Get`
returns, which is the zero value when there is no row. -/
def collectCountOf (biz : GoString) (postId : Nat) (db : DB) : Int :=
  (Get none biz postId db).1.CollectCount

/-- Successive calls `IncrReadCnt(biz, postId)`, call `k` with its own clock reading and
fault, stopping at the first call that does not return `nil`. -/
def incrReadCntTimes (fs : Nat → Fault) (nows : Nat → Int) (biz : GoString) (postId : Nat) :
    Nat → DB → DB × Ret
  | 0, db => (db, Ret.ok)
  | n + 1, db =>
    match incrReadCntTimes fs nows biz postId n db with
    | (db1, Ret.ok) => IncrReadCnt (fs n) (nows n) biz postId db1
    | (db1, r) => (db1, r)

/-- The part of a like row that no operation may change: primary key and triple. -/
def likeIdent (r : UserLikeBiz) : Int × Int × Nat × GoString :=
  (r.ID, r.Uid, r.BizID, r.BizName)

/-- The triple `(uid, bizID, bizName)` of a like row. -/
def likeTriple (r : UserLikeBiz) : Int × Nat × GoString := (r.Uid, r.BizID, r.BizName)

/-- The store states reachable from an empty `user_like_bizs` table (the other tables
arbitrary) by calls of `InsertLikeInfo` and `DeleteLikeInfo`, with any arguments, clock
readings and faults, whether the calls succeed or not. -/
inductive LikeReachable : DB → Prop where
  | init (db : DB) (h : db.userLikeBizs = []) : LikeReachable db
  | insert (fs : Faults) (now : Int) (lb : UserLikeBiz) (db : DB) (h : LikeReachable db) :
      LikeReachable (InsertLikeInfo fs now lb db).1
  | delete (fs : Faults) (now : Int) (lb : UserLikeBiz) (db : DB) (h : LikeReachable db) :
      LikeReachable (DeleteLikeInfo fs now lb db).1

/-- Well-formedness of `user_like_bizs`: primary keys are distinct and non-zero, and no two
rows share a triple. -/
def likeWF (t : List UserLikeBiz) : Prop :=
  (t.map UserLikeBiz.ID).Nodup ∧ (∀ r ∈ t, r.ID ≠ 0) ∧ (t.map likeTriple).Nodup

/-- A like row for `(biz, id)` whose status is Liked. -/
def liked (biz : GoString) (id : Nat) (l : UserLikeBiz) : Bool :=
  decide (l.BizName = biz) && decide (l.BizID = id) && decide (l.Status = StatusLiked)

/-- A collection row for `(biz, id)` whose status is Collected. -/
def collected (biz : GoString) (id : Nat) (c : UserCollectionBiz) : Bool :=
  decide (c.BizName = biz) && decide (c.BizID = id) && decide (c.Status = StatusCollection)

/-- The store states reachable from the empty store by successful calls of `IncrReadCnt`,
`InsertLikeInfo`, `DeleteLikeInfo`, `InsertCollectionBiz` and `DeleteCollectionBiz`.
With `paired = true` a delete is only issued while the table holds an active row it will
deactivate (a liked row of the triple, a collected row of the triple and collection);
with `paired = false` deletes are issued freely. -/
inductive Reachable (paired : Bool) : DB → Prop where
  | empty : Reachable paired DB.empty
  | incrRead (f : Fault) (now : Int) (biz : GoString) (postId : Nat) (db db' : DB)
      (h : Reachable paired db) (hok : IncrReadCnt f now biz postId db = (db', Ret.ok)) :
      Reachable paired db'
  | insertLike (fs : Faults) (now : Int) (lb : UserLikeBiz) (db db' : DB)
      (h : Reachable paired db) (hok : InsertLikeInfo fs now lb db = (db', Ret.ok)) :
      Reachable paired db'
  | deleteLike (fs : Faults) (now : Int) (lb : UserLikeBiz) (db db' : DB)
      (h : Reachable paired db)
      (hp : paired = true → ∃ r ∈ db.userLikeBizs,
        likeOf lb.Uid lb.BizID lb.BizName r = true ∧ r.Status = StatusLiked)
      (hok : DeleteLikeInfo fs now lb db = (db', Ret.ok)) : Reachable paired db'
  | insertCollection (fs : Faults) (now : Int) (cb : UserCollectionBiz) (db db' : DB)
      (h : Reachable paired db) (hok : InsertCollectionBiz fs now cb db = (db', Ret.ok)) :
      Reachable paired db'
  | deleteCollection (fs : Faults) (now : Int) (cb : UserCollectionBiz) (db db' : DB)
      (h : Reachable paired db)
      (hp : paired = true → ∃ r ∈ db.userCollectionBizs,
        collectionIn cb.Uid cb.BizID cb.BizName cb.CollectionId r = true ∧
          r.Status = StatusCollection)
      (hok : DeleteCollectionBiz fs now cb db = (db', Ret.ok)) : Reachable paired db'

/-- Primary keys of a table are distinct and non-zero. -/
def keysWF {α : Type} (ID : α → Int) (t : List α) : Prop :=
  (t.map ID).Nodup ∧ ∀ r ∈ t, ID r ≠ 0

/-- The counter `cnt` covers the active rows counted by `act`: every counter row has a
counter at least the number of active rows of its key, and a key with an active row has a
counter row. -/
def Covered (cnt : Interactive → Int) (act : GoString → Nat → Nat)
    (t : List Interactive) : Prop :=
  (∀ r ∈ t, (act r.BizName r.BizID : Int) ≤ cnt r) ∧
  (∀ biz id, (∀ r ∈ t, sameBiz biz id r = false) → act biz id = 0)

/-- The invariant behind the counters: primary keys are well-formed, read counters are
non-negative, the like counter covers the liked rows and the collect counter covers the
collected rows. -/
def CountersInv (db : DB) : Prop :=
  keysWF UserLikeBiz.ID db.userLikeBizs ∧
  keysWF UserCollectionBiz.ID db.userCollectionBizs ∧
  (∀ r ∈ db.interactives, 0 ≤ r.ReadCount) ∧
  Covered Interactive.LikeCount (fun biz id => db.userLikeBizs.countP (liked biz id))
    db.interactives ∧
  Covered Interactive.CollectCount
    (fun biz id => db.userCollectionBizs.countP (collected biz id)) db.interactives

/-! ## Strings and runes (`[]rune(s)` and `string(runes)` of the Go language) -/

def runeError : Nat := 0xFFFD
def maxRune : Nat := 0x10FFFF
def surrogateMin : Nat := 0xD800
def surrogateMax : Nat := 0xDFFF

/-- A UTF-8 continuation byte, `0x80 ..= 0xBF`. -/
def isCont (b : Fin 256) : Bool := decide (0x80 ≤ b.val) && decide (b.val ≤ 0xBF)

/-- The value of a two-byte sequence: `rune(s[0]&0x1F)<<6 | rune(s[1]&0x3F)`. -/
def rune2 (b0 b1 : Fin 256) : Nat := (b0.val % 32) * 64 + b1.val % 64

/-- The value of a three-byte sequence. -/
def rune3 (b0 b1 b2 : Fin 256) : Nat :=
  (b0.val % 16) * 4096 + (b1.val % 64) * 64 + b2.val % 64

/-- The value of a four-byte sequence. -/
def rune4 (b0 b1 b2 b3 : Fin 256) : Nat :=
  (b0.val % 8) * 262144 + (b1.val % 64) * 4096 + (b2.val % 64) * 64 + b3.val % 64

/-- The conversion `[]rune(s)`: the string is decoded as UTF-8 from left to right; a byte
that does not start a well-formed sequence (a stray continuation byte, a truncated or
overlong sequence, a surrogate, a value above `maxRune`) yields `runeError` and decoding
goes on at the next byte. -/
def toRunes : GoString → List Nat
  | [] => []
  | b0 :: rest =>
    if b0.val < 0x80 then b0.val :: toRunes rest
    else if b0.val < 0xC0 then runeError :: toRunes rest
    else if b0.val < 0xE0 then
      match rest with
      | b1 :: rest1 =>
        if isCont b1 && decide (0x7F < rune2 b0 b1) then rune2 b0 b1 :: toRunes rest1
        else runeError :: toRunes (b1 :: rest1)
      | [] => [runeError]
    else if b0.val < 0xF0 then
      match rest with
      | b1 :: b2 :: rest2 =>
        if isCont b1 && isCont b2 && decide (0x7FF < rune3 b0 b1 b2) &&
            !(decide (surrogateMin ≤ rune3 b0 b1 b2) && decide (rune3 b0 b1 b2 ≤ surrogateMax))
        then rune3 b0 b1 b2 :: toRunes rest2
        else runeError :: toRunes (b1 :: b2 :: rest2)
      | rest' => runeError :: toRunes rest'
    else if b0.val < 0xF8 then
      match rest with
      | b1 :: b2 :: b3 :: rest3 =>
        if isCont b1 && isCont b2 && isCont b3 && decide (0xFFFF < rune4 b0 b1 b2 b3) &&
            decide (rune4 b0 b1 b2 b3 ≤ maxRune)
        then rune4 b0 b1 b2 b3 :: toRunes rest3
        else runeError :: toRunes (b1 :: b2 :: b3 :: rest3)
      | rest' => runeError :: toRunes rest'
    else runeError :: toRunes rest

/-- The UTF-8 encoding of one rune as `string(runes)` writes it; a surrogate or a value
above `maxRune` is written as `runeError`. -/
def encoderune (r : Nat) : GoString :=
  if r ≤ 0x7F then [byte r]
  else if r ≤ 0x7FF then [byte (0xC0 + r / 64), byte (0x80 + r % 64)]
  else if maxRune < r ∨ (surrogateMin ≤ r ∧ r ≤ surrogateMax) then [0xEF, 0xBF, 0xBD]
  else if r ≤ 0xFFFF then
    [byte (0xE0 + r / 4096), byte (0x80 + r / 64 % 64), byte (0x80 + r % 64)]
  else
    [byte (0xF0 + r / 262144), byte (0x80 + r / 4096 % 64), byte (0x80 + r / 64 % 64),
      byte (0x80 + r % 64)]

/-- The conversion `string(runes)`. -/
def fromRunes (rs : List Nat) : GoString := (rs.map encoderune).flatten

/-- A Unicode scalar value: at most `maxRune` and not a surrogate. -/
def validRune (r : Nat) : Prop := r ≤ maxRune ∧ ¬ (surrogateMin ≤ r ∧ r ≤ surrogateMax)

/-- Whether a string is well-formed UTF-8 (`utf8.ValidString`): a sequence of
`00..7F`, `C2..DF 80..BF`, `E0 A0..BF 80..BF`, `E1..EC 80..BF 80..BF`, `ED 80..9F 80..BF`,
`EE..EF 80..BF 80..BF`, `F0 90..BF 80..BF 80..BF`, `F1..F3 80..BF 80..BF 80..BF` and
`F4 80..8F 80..BF 80..BF`. -/
def utf8Valid : GoString → Bool
  | [] => true
  | b0 :: rest =>
    if b0.val < 0x80 then utf8Valid rest
    else if b0.val < 0xC2 then false
    else if b0.val < 0xE0 then
      match rest with
      | b1 :: rest1 => isCont b1 && utf8Valid rest1
      | [] => false
    else if b0.val < 0xF0 then
      match rest with
      | b1 :: b2 :: rest2 =>
        isCont b1 && isCont b2 && (decide (b0.val ≠ 0xE0) || decide (0xA0 ≤ b1.val)) &&
          (decide (b0.val ≠ 0xED) || decide (b1.val ≤ 0x9F)) && utf8Valid rest2
      | _ => false
    else if b0.val < 0xF5 then
      match rest with
      | b1 :: b2 :: b3 :: rest3 =>
        isCont b1 && isCont b2 && isCont b3 &&
          (decide (b0.val ≠ 0xF0) || decide (0x90 ≤ b1.val)) &&
          (decide (b0.val ≠ 0xF4) || decide (b1.val ≤ 0x8F)) && utf8Valid rest3
      | _ => false
    else false

/-! ## The domain (`internal/domain/post.go`) -/

/-- A `time.Time` value. -/
structure Time where
  unixNano : Int
  deriving DecidableEq, Repr

/-- A `sql.NullTime` value. -/
structure NullTime where
  Time : Time
  Valid : Bool
  deriving DecidableEq, Repr

structure Author where
  Id : Int
  Name : GoString
  deriving DecidableEq, Repr

structure Post where
  ID : Nat
  Title : GoString
  Content : GoString
  CreatedAt : Time
  UpdatedAt : Time
  DeletedAt : NullTime
  Author : Author
  Status : GoString
  Visibility : GoString
  PlateID : Int
  Slug : GoString
  CategoryID : Int
  Tags : GoString
  CommentCount : Int
  deriving DecidableEq, Repr

/-- `Post.Abstract` (`post.go`, lines 59-67). -/
def Post.Abstract (p : Post) : GoString :=
  let str := toRunes p.Content
  let str := if str.length > 128 then str.take 128 else str
  fromRunes str

/-- The zero value of `Post`. -/
def Post.zero : Post :=
  ⟨0, [], [], ⟨0⟩, ⟨0⟩, ⟨⟨0⟩, false⟩, ⟨0, []⟩, [], [], 0, [], 0, [], 0⟩

/-! ## The first-page cache (`internal/repository/cache/post.go`) -/

/-- The errors the cache can hand back. -/
inductive CacheError where
  /-- `redis.Nil`: the key is absent. -/
  | Nil
  /-- Any other failure of a Redis command. -/
  | redis (code : Nat)
  /-- A failure of `json.Marshal` or `json.Unmarshal`. -/
  | json (code : Nat)
  deriving DecidableEq, Repr

/-- A command sent to Redis. -/
inductive Cmd where
  | get (key : GoString)
  | set (key : GoString) (minutes : Nat)
  | del (key : GoString)
  deriving DecidableEq, Repr

/-- The Redis client `p.cmd`, over payloads of type `β`: the entries it holds, each with
its key, payload and expiry in minutes, and the commands sent to it so far. -/
structure Redis (β : Type) where
  store : List (GoString × β × Nat)
  log : List Cmd

/-- `cmd.Get(ctx, key).Bytes()`. -/
def Redis.Get {β : Type} (f : Fault) (key : GoString) (c : Redis β) :
    Redis β × Except CacheError β :=
  let c' : Redis β := { c with log := c.log ++ [Cmd.get key] }
  match f with
  | some code => (c', Except.error (CacheError.redis code))
  | none =>
    match c.store.find? (fun e => decide (e.1 = key)) with
    | some e => (c', Except.ok e.2.1)
    | none => (c', Except.error CacheError.Nil)

/-- `cmd.Set(ctx, key, val, ttl).Err()`. -/
def Redis.Set {β : Type} (f : Fault) (key : GoString) (val : β) (minutes : Nat)
    (c : Redis β) : Redis β × Option CacheError :=
  let log' := c.log ++ [Cmd.set key minutes]
  match f with
  | some code => ({ c with log := log' }, some (CacheError.redis code))
  | none =>
    ({ store := (key, val, minutes) :: c.store.filter (fun e => decide (e.1 ≠ key)),
       log := log' }, none)

/-- `cmd.Del(ctx, key).Err()`; deleting an absent key is not an error. -/
def Redis.Del {β : Type} (f : Fault) (key : GoString) (c : Redis β) :
    Redis β × Option CacheError :=
  let log' := c.log ++ [Cmd.del key]
  match f with
  | some code => ({ c with log := log' }, some (CacheError.redis code))
  | none => ({ store := c.store.filter (fun e => decide (e.1 ≠ key)), log := log' }, none)

/-- The JSON coding of a list of posts into a payload: `json.Marshal(post)` and
`json.Unmarshal(val, &dp)`, either of which can fail. -/
structure JSON (β : Type) where
  Marshal : List Post → Except Nat β
  Unmarshal : β → Except Nat (List Post)

/-- `fmt.Sprintf("post:first:%d", postId)`. -/
def firstKey (postId : Nat) : GoString := lit "post:first:" ++ lit (Nat.repr postId)

/-- `fmt.Sprintf("post:pub:first:%d", postId)`. -/
def pubFirstKey (postId : Nat) : GoString := lit "post:pub:first:" ++ lit (Nat.repr postId)

/-- The loop `for i := 0; i < len(post); i++ { post[i].Content = post[i].Abstract() }`. -/
def abstractAll : List Post → List Post
  | [] => []
  | p :: ps => { p with Content := p.Abstract } :: abstractAll ps

/-- `SetFirstPage` (lines 38-49). The second component is the caller's slice after the
call: the loop rewrites it in place. -/
def SetFirstPage {β : Type} (js : JSON β) (f : Fault) (postId : Nat) (post : List Post)
    (c : Redis β) : Redis β × List Post × Option CacheError :=
  let post := abstractAll post
  match js.Marshal post with
  | Except.error e => (c, post, some (CacheError.json e))
  | Except.ok val =>
    let res := c.Set f (firstKey postId) val 15
    (res.1, post, res.2)

/-- `SetPubFirstPage` (lines 71-82). -/
def SetPubFirstPage {β : Type} (js : JSON β) (f : Fault) (postId : Nat) (post : List Post)
    (c : Redis β) : Redis β × List Post × Option CacheError :=
  let post := abstractAll post
  match js.Marshal post with
  | Except.error e => (c, post, some (CacheError.json e))
  | Except.ok val =>
    let res := c.Set f (pubFirstKey postId) val 15
    (res.1, post, res.2)

/-- `GetPubFirstPage` (lines 52-68); the `nil` slice is the empty list. -/
def GetPubFirstPage {β : Type} (js : JSON β) (f : Fault) (postId : Nat) (c : Redis β) :
    Redis β × List Post × Option CacheError :=
  let res := c.Get f (pubFirstKey postId)
  match res.2 with
  | Except.error CacheError.Nil => (res.1, [], none)
  | Except.error err => (res.1, [], some err)
  | Except.ok val =>
    match js.Unmarshal val with
    | Except.error er => (res.1, [], some (CacheError.json er))
    | Except.ok dp => (res.1, dp, none)

/-- `DelFirstPage` (lines 85-99): `f1` is the fault of the first `Del`, `f2` the fault of
the second. -/
def DelFirstPage {β : Type} (f1 f2 : Fault) (postId : Nat) (c : Redis β) :
    Redis β × Option CacheError :=
  let key1 := firstKey postId
  let key2 := pubFirstKey postId
  let res1 := c.Del f1 key1
  match res1.2 with
  | some err => (res1.1, some err)
  | none =>
    let res2 := res1.1.Del f2 key2
    match res2.2 with
    | some er => (res2.1, some er)
    | none => (res2.1, none)

/-- `DelPubFirstPage` (lines 102-105). -/
def DelPubFirstPage {β : Type} (f : Fault) (postId : Nat) (c : Redis β) :
    Redis β × Option CacheError :=
  c.Del f (pubFirstKey postId)

/-! ## The CORS origin predicate (`ioc/middleware.go`) -/

/-- `strings.HasPrefix(s, prefix)`: `len(s) >= len(prefix) && s[:len(prefix)] == prefix`. -/
def HasPrefix (s pre : GoString) : Bool :=
  decide (pre.length ≤ s.length) && decide (s.take pre.length = pre)

/-- The search of `strings.Index` from position `i` on: the index of the first instance of
`substr` in the rest of the string, or -1. -/
def indexFrom (substr : GoString) : GoString → Nat → Int
  | [], i => if substr = [] then (i : Int) else -1
  | b :: rest, i => if HasPrefix (b :: rest) substr then (i : Int) else indexFrom substr rest (i + 1)

/-- `strings.Index(s, substr)`. -/
def Index (s substr : GoString) : Int := indexFrom substr s 0

/-- `strings.Contains(s, substr)`: `Index(s, substr) >= 0`. -/
def Contains (s substr : GoString) : Bool := decide (Index s substr ≥ 0)

/-- The fields of `cors.Config` that `InitMiddlewares` sets (lines 18-29). -/
structure CorsConfig where
  AllowMethods : List GoString
  AllowCredentials : Bool
  AllowHeaders : List GoString
  ExposeHeaders : List GoString
  AllowOriginFunc : GoString → Bool
  MaxAgeHours : Nat

/-- The function literal given as `AllowOriginFunc` (lines 23-28). -/
def AllowOriginFunc (origin : GoString) : Bool :=
  if HasPrefix origin (lit "http://localhost") then true
  else Contains origin (lit "")

/-- The configuration `InitMiddlewares` hands to `cors.New`. -/
def corsConfig : CorsConfig :=
  { AllowMethods := [lit "GET", lit "POST", lit "PUT", lit "DELETE", lit "PATCH", lit "OPTIONS"],
    AllowCredentials := true,
    AllowHeaders := [lit "Content-Type", lit "Authorization", lit "X-Refresh-Token"],
    ExposeHeaders := [lit "x-jwt-token", lit "x-refresh-token"],
    AllowOriginFunc := AllowOriginFunc,
    MaxAgeHours := 12 }

/-! ## Sample values -/

/-- A sample request: user 7 and post 1. -/
def sampleLike : UserLikeBiz :=
  { UserLikeBiz.zero with Uid := 7, BizID := 1, BizName := lit "post" }

/-- A sample request: user 7 puts post 1 into collection `c`. -/
def sampleCollection (c : Int) : UserCollectionBiz :=
  { UserCollectionBiz.zero with Uid := 7, BizID := 1, BizName := lit "post", CollectionId := c }

/-- The store after user 7 liked post 1 in the empty store. -/
def likedOnce : DB := (InsertLikeInfo Faults.none 100 sampleLike DB.empty).1

/-- The store after user 7 liked and then unliked post 1. -/
def unlikedOnce : DB := (DeleteLikeInfo Faults.none 101 sampleLike likedOnce).1

/-- The store after user 7 liked post 1 and then unliked it twice. -/
def unlikedTwice : DB := (DeleteLikeInfo Faults.none 102 sampleLike unlikedOnce).1

/-- The store after user 7 put post 1 into collection 1, starting from the empty store. -/
def collectedInOne : DB := (InsertCollectionBiz Faults.none 100 (sampleCollection 1) DB.empty).1

/-- Then user 7 puts post 1 into collection 2. -/
def collectedInTwo : DB :=
  (InsertCollectionBiz Faults.none 101 (sampleCollection 2) collectedInOne).1

/-- Then user 7 takes post 1 out of collection 2. -/
def uncollectedFromTwo : DB :=
  (DeleteCollectionBiz Faults.none 102 (sampleCollection 2) collectedInTwo).1

/-- A codec whose payload is the list itself: decoding inverts encoding. -/
def idJSON : JSON (List Post) := ⟨fun ps => Except.ok ps, fun b => Except.ok b⟩

/-- A post whose body is 300 times the letter `a`. -/
def longPost : Post := { Post.zero with ID := 7, Content := List.replicate 300 0x61 }

/-- A cache that holds both first-page entries of owner 42. -/
def bothPages : Redis (List Post) :=
  ⟨[(firstKey 42, [Post.zero], 15), (pubFirstKey 42, [Post.zero], 15)], []⟩

/-! ## Lemmas on the storage primitives -/

theorem minByID_eq_none {α : Type} (ID : α → Int) (l : List α) :
    minByID ID l = none ↔ l = [] := by
  cases l with
  | nil => simp [minByID]
  | cons r rs =>
    simp only [minByID]
    cases minByID ID rs with
    | none => simp
    | some m => by_cases h : ID r ≤ ID m <;> simp [h]

theorem minByID_mem {α : Type} (ID : α → Int) (l : List α) (m : α)
    (h : minByID ID l = some m) : m ∈ l := by
  induction l generalizing m with
  | nil => simp [minByID] at h
  | cons r rs ih =>
    simp only [minByID] at h
    cases hrs : minByID ID rs with
    | none =>
      rw [hrs] at h
      simp only [Option.some.injEq] at h
      simp [h]
    | some m' =>
      rw [hrs] at h
      by_cases hle : ID r ≤ ID m'
      · simp only [hle, if_true, Option.some.injEq] at h
        simp [h]
      · simp only [hle, if_false, Option.some.injEq] at h
        subst h
        exact List.mem_cons_of_mem _ (ih _ hrs)

/-- Rewriting rows without touching their keys commutes with taking the least key. -/
theorem minByID_map {α : Type} (ID : α → Int) (g : α → α) (hg : ∀ r, ID (g r) = ID r)
    (l : List α) : minByID ID (l.map g) = (minByID ID l).map g := by
  induction l with
  | nil => rfl
  | cons r rs ih =>
    simp only [List.map_cons, minByID, ih]
    cases minByID ID rs with
    | none => rfl
    | some m =>
      simp only [Option.map_some', hg]
      by_cases h : ID r ≤ ID m <;> simp [h]

theorem gormFirst_found {α : Type} (ID : α → Int) (zero : α) (f : Fault) (p : α → Bool)
    (t : List α) (r : α) (h : gormFirst ID zero f p t = (r, none)) :
    f = none ∧ r ∈ t ∧ p r = true := by
  unfold gormFirst at h
  cases f with
  | some c => simp at h
  | none =>
    simp only at h
    cases hm : minByID ID (t.filter p) with
    | none => rw [hm] at h; simp at h
    | some m =>
      rw [hm] at h
      simp only [Prod.mk.injEq, and_true] at h
      subst h
      have := minByID_mem ID _ _ hm
      simp only [List.mem_filter] at this
      exact ⟨rfl, this.1, this.2⟩

theorem gormFirst_of_mem {α : Type} (ID : α → Int) (zero : α) (p : α → Bool)
    (t : List α) (r : α) (hr : r ∈ t) (hp : p r = true) :
    ∃ m, gormFirst ID zero none p t = (m, none) ∧ m ∈ t ∧ p m = true := by
  unfold gormFirst
  cases hm : minByID ID (t.filter p) with
  | none =>
    rw [minByID_eq_none] at hm
    have : r ∈ t.filter p := List.mem_filter.mpr ⟨hr, hp⟩
    rw [hm] at this
    simp at this
  | some m =>
    have := minByID_mem ID _ _ hm
    simp only [List.mem_filter] at this
    exact ⟨m, rfl, this.1, this.2⟩

theorem gormFirst_notFound {α : Type} (ID : α → Int) (zero : α) (p : α → Bool)
    (t : List α) (h : ∀ r ∈ t, p r = false) :
    gormFirst ID zero none p t = (zero, some DBError.ErrRecordNotFound) := by
  unfold gormFirst
  have : t.filter p = [] := by
    rw [List.filter_eq_nil_iff]
    intro a ha
    simp [h a ha]
  simp [this, minByID]

theorem gormFirst_notFound_inv {α : Type} (ID : α → Int) (zero : α) (f : Fault)
    (p : α → Bool) (t : List α) (h : (gormFirst ID zero f p t).2 = some DBError.ErrRecordNotFound) :
    f = none ∧ ∀ r ∈ t, p r = false := by
  unfold gormFirst at h
  cases f with
  | some c => simp at h
  | none =>
    refine ⟨rfl, ?_⟩
    simp only at h
    cases hm : minByID ID (t.filter p) with
    | some m => rw [hm] at h; simp at h
    | none =>
      rw [minByID_eq_none, List.filter_eq_nil_iff] at hm
      intro r hr
      simpa using hm r hr

theorem Transaction_ok (fs : Faults) (fc : DB → DB × Ret) (db db' : DB)
    (h : Transaction fs fc db = (db', Ret.ok)) :
    fs.begin = none ∧ fs.commit = none ∧ fc db = (db', Ret.ok) := by
  unfold Transaction at h
  cases hb : fs.begin with
  | some c => rw [hb] at h; simp at h
  | none =>
    rw [hb] at h
    simp only at h
    rcases hfc : fc db with ⟨d, r⟩
    rw [hfc] at h
    cases r with
    | ok =>
      simp only at h
      cases hc : fs.commit with
      | some c => rw [hc] at h; simp at h
      | none =>
        rw [hc] at h
        simp only [Prod.mk.injEq, and_true] at h
        subst h
        exact ⟨rfl, rfl, rfl⟩
    | err e => simp at h
    | panic => simp at h

/-- Whatever the body does, a transaction that does not return `nil` leaves the database as
it found it. -/
theorem Transaction_rollback (fs : Faults) (fc : DB → DB × Ret) (db : DB)
    (h : (Transaction fs fc db).2 ≠ Ret.ok) : (Transaction fs fc db).1 = db := by
  unfold Transaction at h ⊢
  cases hb : fs.begin with
  | some c => simp
  | none =>
    rw [hb] at h
    simp only at h ⊢
    rcases hfc : fc db with ⟨d, r⟩
    rw [hfc] at h
    cases r with
    | ok =>
      simp only at h ⊢
      cases hc : fs.commit with
      | some c => simp
      | none => rw [hc] at h; simp at h
    | err e => simp
    | panic => simp

theorem lt_nextID (l : List Int) : ∀ i ∈ l, i < nextID l := by
  induction l with
  | nil => simp
  | cons a as ih =>
    intro i hi
    simp only [nextID]
    rcases List.mem_cons.mp hi with h | h
    · subst h; omega
    · have := ih i h; omega

theorem nextID_pos (l : List Int) : 1 ≤ nextID l := by
  induction l with
  | nil => simp [nextID]
  | cons a as ih => simp only [nextID]; omega

theorem sameBiz_iff (bizName : GoString) (bizID : Nat) (r : Interactive) :
    sameBiz bizName bizID r = true ↔ r.BizName = bizName ∧ r.BizID = bizID := by
  simp [sameBiz]

theorem gormUpdates_ok {α : Type} (f : Fault) (p : α → Bool) (upd : α → α)
    (fits : α → Bool) (t t' : List α) (h : gormUpdates f p upd fits t = (t', none)) :
    f = none ∧ (∀ r ∈ t, p r = true → fits (upd r) = true) ∧
      t' = t.map (fun r => if p r then upd r else r) := by
  unfold gormUpdates at h
  cases f with
  | some c => simp at h
  | none =>
    simp only at h
    by_cases hall : (t.filter p).all (fun r => fits (upd r)) = true
    · rw [if_pos hall] at h
      simp only [Prod.mk.injEq, and_true] at h
      refine ⟨rfl, ?_, h.symm⟩
      intro r hr hp
      rw [List.all_eq_true] at hall
      exact hall r (List.mem_filter.mpr ⟨hr, hp⟩)
    · rw [if_neg hall] at h
      simp at h

theorem gormUpsert_ok (f : Fault) (v : Interactive) (upd : Interactive → Interactive)
    (t t' : List Interactive) (h : gormUpsert f v upd t = (t', none)) :
    f = none ∧
      (((∀ r ∈ t, sameBiz v.BizName v.BizID r = false) ∧
          t' = t ++ [{ v with ID := nextID (t.map (fun r => r.ID)) }]) ∨
        ((∃ r ∈ t, sameBiz v.BizName v.BizID r = true) ∧
          (∀ r ∈ t, sameBiz v.BizName v.BizID r = true → (upd r).fits = true) ∧
          t' = t.map (fun r => if sameBiz v.BizName v.BizID r then upd r else r))) := by
  unfold gormUpsert at h
  cases f with
  | some c => simp at h
  | none =>
    refine ⟨rfl, ?_⟩
    simp only at h
    by_cases hany : t.any (sameBiz v.BizName v.BizID) = true
    · rw [if_pos hany] at h
      have := gormUpdates_ok _ _ _ _ _ _ h
      right
      refine ⟨?_, this.2.1, this.2.2⟩
      rw [List.any_eq_true] at hany
      exact hany
    · rw [if_neg hany] at h
      simp only [Prod.mk.injEq, and_true] at h
      left
      refine ⟨?_, h.symm⟩
      intro r hr
      cases hs : sameBiz v.BizName v.BizID r with
      | false => rfl
      | true => exact absurd (List.any_eq_true.mpr ⟨r, hr, hs⟩) hany

theorem Ret.ofError_ok (e : GoError) : Ret.ofError e = Ret.ok ↔ e = none := by
  cases e <;> simp [Ret.ofError]

theorem IncrReadCnt_ok (f : Fault) (now : Int) (biz : GoString) (postId : Nat)
    (db db' : DB) (h : IncrReadCnt f now biz postId db = (db', Ret.ok)) :
    db'.userLikeBizs = db.userLikeBizs ∧ db'.userCollectionBizs = db.userCollectionBizs ∧
      gormUpsert f
        { Interactive.zero with
          BizName := biz, BizID := postId, ReadCount := 1, CreateTime := now,
          UpdateTime := now }
        (fun r => { r with ReadCount := r.ReadCount + 1, UpdateTime := now })
        db.interactives = (db'.interactives, none) := by
  unfold IncrReadCnt at h
  simp only [Prod.mk.injEq, Ret.ofError_ok] at h
  obtain ⟨h1, h2⟩ := h
  subst h1
  refine ⟨rfl, rfl, ?_⟩
  exact Prod.ext rfl h2

/-- A successful `IncrReadCnt` raises the counter a caller reads by one. -/
theorem readCountOf_IncrReadCnt (f : Fault) (now : Int) (biz : GoString) (postId : Nat)
    (db db' : DB) (h : IncrReadCnt f now biz postId db = (db', Ret.ok)) :
    readCountOf biz postId db' = readCountOf biz postId db + 1 := by
  obtain ⟨-, -, hu⟩ := IncrReadCnt_ok f now biz postId db db' h
  obtain ⟨-, hcase⟩ := gormUpsert_ok _ _ _ _ _ hu
  simp only [readCountOf, Get]
  rcases hcase with ⟨habs, ht⟩ | ⟨hex, -, ht⟩
  · rw [gormFirst_notFound _ _ _ _ habs, ht]
    unfold gormFirst
    have hf : List.filter (sameBiz biz postId) db.interactives = [] := by
      rw [List.filter_eq_nil_iff]
      intro a ha
      simp [habs a ha]
    simp [List.filter_append, hf, sameBiz, minByID, Interactive.zero]
  · rw [ht]
    unfold gormFirst
    simp only
    have hfm : List.filter (sameBiz biz postId)
        (db.interactives.map (fun r => if sameBiz biz postId r = true then
          ({ r with ReadCount := r.ReadCount + 1, UpdateTime := now } : Interactive) else r)) =
        (List.filter (sameBiz biz postId) db.interactives).map
          (fun r => if sameBiz biz postId r = true then
          ({ r with ReadCount := r.ReadCount + 1, UpdateTime := now } : Interactive) else r) := by
      rw [List.filter_map]
      congr 1
      apply List.filter_congr
      intro r _
      simp only [Function.comp]
      by_cases hs : sameBiz biz postId r = true
      · rw [if_pos hs]; simp only [sameBiz] at hs ⊢
      · rw [if_neg hs]
    rw [hfm, minByID_map]
    · obtain ⟨r, hr, hs⟩ := hex
      cases hm : minByID Interactive.ID (List.filter (sameBiz biz postId) db.interactives) with
      | none =>
        rw [minByID_eq_none] at hm
        have : r ∈ List.filter (sameBiz biz postId) db.interactives :=
          List.mem_filter.mpr ⟨hr, hs⟩
        rw [hm] at this
        simp at this
      | some m =>
        have hmem := minByID_mem _ _ _ hm
        simp only [List.mem_filter] at hmem
        simp [hmem.2]
    · intro r
      by_cases hs : sameBiz biz postId r = true
      · rw [if_pos hs]
      · rw [if_neg hs]

theorem incrReadCntTimes_ok (fs : Nat → Fault) (nows : Nat → Int) (biz : GoString)
    (postId : Nat) (n : Nat) (db db' : DB)
    (h : incrReadCntTimes fs nows biz postId n db = (db', Ret.ok)) :
    readCountOf biz postId db' = readCountOf biz postId db + n := by
  induction n generalizing db' with
  | zero =>
    simp only [incrReadCntTimes, Prod.mk.injEq, and_true] at h
    subst h
    simp
  | succ k ih =>
    simp only [incrReadCntTimes] at h
    rcases hk : incrReadCntTimes fs nows biz postId k db with ⟨db1, r⟩
    rw [hk] at h
    cases r with
    | ok =>
      simp only at h
      rw [readCountOf_IncrReadCnt _ _ _ _ _ _ h, ih db1 hk]
      push_cast
      ring
    | err e => simp at h
    | panic => simp at h

/-! ## C1: the effect of `IncrReadCnt` -/

/-- C1. A successful `IncrReadCnt(biz, postId)` leaves the two per-user tables alone and
changes `interactives` as follows. If no row holds `(biz, postId)`, exactly one row is
appended, under an unused `ID`, with `ReadCount = 1`, `LikeCount = 0`, `CollectCount = 0`
and both timestamps `now`. If a row holds the key, the table keeps its length and order,
every row holding the key gets `ReadCount + 1` and `UpdateTime = now` with all its other
columns (`LikeCount`, `CollectCount`, `CreateTime`, `ID`, key) unchanged, and every other
row is unchanged. Hence `n` successive successful calls raise the read counter that `Get`
reports for the key by exactly `n`. -/
theorem IncrReadCnt_effect (f : Fault) (now : Int) (biz : GoString) (postId : Nat)
    (db db' : DB) (fs : Nat → Fault) (nows : Nat → Int) (n : Nat) (dbN : DB) :
    (IncrReadCnt f now biz postId db = (db', Ret.ok) →
      db'.userLikeBizs = db.userLikeBizs ∧
      db'.userCollectionBizs = db.userCollectionBizs ∧
      ((∀ r ∈ db.interactives, ¬ (r.BizName = biz ∧ r.BizID = postId)) →
        ∃ id, (∀ r ∈ db.interactives, r.ID ≠ id) ∧
          db'.interactives = db.interactives ++
            [{ ID := id, BizID := postId, BizName := biz, ReadCount := 1, LikeCount := 0,
               CollectCount := 0, UpdateTime := now, CreateTime := now }]) ∧
      ((∃ r ∈ db.interactives, r.BizName = biz ∧ r.BizID = postId) →
        List.Forall₂
          (fun r r' =>
            if r.BizName = biz ∧ r.BizID = postId then
              r' = { r with ReadCount := r.ReadCount + 1, UpdateTime := now }
            else r' = r)
          db.interactives db'.interactives)) ∧
    (incrReadCntTimes fs nows biz postId n db = (dbN, Ret.ok) →
      readCountOf biz postId dbN = readCountOf biz postId db + n) := by
  refine ⟨?_, incrReadCntTimes_ok fs nows biz postId n db dbN⟩
  intro h
  obtain ⟨hl, hc, hu⟩ := IncrReadCnt_ok f now biz postId db db' h
  obtain ⟨-, hcase⟩ := gormUpsert_ok _ _ _ _ _ hu
  refine ⟨hl, hc, ?_, ?_⟩
  · intro habs
    rcases hcase with ⟨-, ht⟩ | ⟨⟨r, hr, hs⟩, -, -⟩
    · refine ⟨nextID (db.interactives.map (fun r => r.ID)), ?_, ?_⟩
      · intro r hr
        have := lt_nextID (db.interactives.map (fun r => r.ID)) r.ID
          (List.mem_map.mpr ⟨r, hr, rfl⟩)
        omega
      · rw [ht]; rfl
    · exact absurd ((sameBiz_iff _ _ _).mp hs) (habs r hr)
  · rintro ⟨r, hr, hkey⟩
    rcases hcase with ⟨habs, -⟩ | ⟨-, -, ht⟩
    · have := habs r hr
      rw [(sameBiz_iff _ _ _).mpr hkey] at this
      exact absurd this (by simp)
    · rw [ht, List.forall₂_map_right_iff]
      apply List.forall₂_same.mpr
      intro x _
      by_cases hx : x.BizName = biz ∧ x.BizID = postId
      · rw [if_pos hx, if_pos ((sameBiz_iff _ _ _).mpr hx)]
      · have : ¬ sameBiz biz postId x = true := fun hc => hx ((sameBiz_iff _ _ _).mp hc)
        rw [if_neg hx, if_neg this]

/-- C1 at a concrete store: three reads of post 1 from the empty store. -/
theorem IncrReadCnt_effect_witness :
    readCountOf (lit "post") 1
        (incrReadCntTimes (fun _ => none) (fun k => 100 + k) (lit "post") 1 3 DB.empty).1 =
      readCountOf (lit "post") 1 DB.empty + (3 : Nat) :=
  (IncrReadCnt_effect none 0 (lit "post") 1 DB.empty DB.empty (fun _ => none)
    (fun k => 100 + k) 3
    (incrReadCntTimes (fun _ => none) (fun k => 100 + k) (lit "post") 1 3 DB.empty).1).2
    (by decide)

/-! ## Lemmas on `InsertLikeInfo` and `DeleteLikeInfo` -/

theorem gormCreate_ok {α : Type} (ID : α → Int) (setID : Int → α → α) (f : Fault) (v : α)
    (t t' : List α) (h : gormCreate ID setID f v t = (t', none)) :
    f = none ∧
      ((ID v = 0 ∧ t' = t ++ [setID (nextID (t.map ID)) v]) ∨
        (ID v ≠ 0 ∧ (∀ r ∈ t, ID r ≠ ID v) ∧ t' = t ++ [v])) := by
  unfold gormCreate at h
  cases f with
  | some c => simp at h
  | none =>
    refine ⟨rfl, ?_⟩
    simp only at h
    by_cases h0 : ID v = 0
    · rw [if_pos h0] at h
      simp only [Prod.mk.injEq, and_true] at h
      exact Or.inl ⟨h0, h.symm⟩
    · rw [if_neg h0] at h
      by_cases hany : t.any (fun r => decide (ID r = ID v)) = true
      · rw [if_pos hany] at h; simp at h
      · rw [if_neg hany] at h
        simp only [Prod.mk.injEq, and_true] at h
        refine Or.inr ⟨h0, ?_, h.symm⟩
        intro r hr heq
        exact hany (List.any_eq_true.mpr ⟨r, hr, by simpa using heq⟩)

theorem gormSave_ok {α : Type} (ID : α → Int) (setID : Int → α → α) (f : Fault) (v : α)
    (t t' : List α) (h : gormSave ID setID f v t = (t', none)) :
    f = none ∧
      ((ID v = 0 ∧ t' = t ++ [setID (nextID (t.map ID)) v]) ∨
        (ID v ≠ 0 ∧ (∃ r ∈ t, ID r = ID v) ∧
          t' = t.map (fun r => if ID r = ID v then v else r)) ∨
        (ID v ≠ 0 ∧ (∀ r ∈ t, ID r ≠ ID v) ∧ t' = t ++ [v])) := by
  unfold gormSave at h
  cases f with
  | some c => simp at h
  | none =>
    refine ⟨rfl, ?_⟩
    simp only at h
    by_cases h0 : ID v = 0
    · rw [if_pos h0] at h
      simp only [Prod.mk.injEq, and_true] at h
      exact Or.inl ⟨h0, h.symm⟩
    · rw [if_neg h0] at h
      by_cases hany : t.any (fun r => decide (ID r = ID v)) = true
      · rw [if_pos hany] at h
        simp only [Prod.mk.injEq, and_true] at h
        obtain ⟨r, hr, hid⟩ := List.any_eq_true.mp hany
        exact Or.inr (Or.inl ⟨h0, ⟨r, hr, by simpa using hid⟩, h.symm⟩)
      · rw [if_neg hany] at h
        simp only [Prod.mk.injEq, and_true] at h
        refine Or.inr (Or.inr ⟨h0, ?_, h.symm⟩)
        intro r hr heq
        exact hany (List.any_eq_true.mpr ⟨r, hr, by simpa using heq⟩)

/-- What a successful `InsertLikeInfo` did: either the lookup found no row and the row was
created, or it found the row `e` and saved it as liked; then the counter was upserted. -/
theorem InsertLikeInfo_ok (fs : Faults) (now : Int) (lb : UserLikeBiz) (db db' : DB)
    (h : InsertLikeInfo fs now lb db = (db', Ret.ok)) :
    db'.userCollectionBizs = db.userCollectionBizs ∧
    gormUpsert (fs.stmt 2)
      { Interactive.zero with
        BizName := lb.BizName, BizID := lb.BizID, LikeCount := 1, UpdateTime := now,
        CreateTime := now }
      (fun r => { r with LikeCount := r.LikeCount + 1, UpdateTime := now })
      db.interactives = (db'.interactives, none) ∧
    (((∀ r ∈ db.userLikeBizs, likeOf lb.Uid lb.BizID lb.BizName r = false) ∧
        gormCreate UserLikeBiz.ID (fun i r => { r with ID := i }) (fs.stmt 1)
          { lb with CreateTime := now, UpdateTime := now, Status := StatusLiked }
          db.userLikeBizs = (db'.userLikeBizs, none)) ∨
      (∃ e, e ∈ db.userLikeBizs ∧ likeOf lb.Uid lb.BizID lb.BizName e = true ∧
        gormSave UserLikeBiz.ID (fun i r => { r with ID := i }) (fs.stmt 1)
          { e with Status := StatusLiked, UpdateTime := now }
          db.userLikeBizs = (db'.userLikeBizs, none))) := by
  unfold InsertLikeInfo at h
  obtain ⟨-, -, hb⟩ := Transaction_ok _ _ _ _ h
  simp only at hb
  rcases hfound : gormFirst UserLikeBiz.ID UserLikeBiz.zero (fs.stmt 0)
      (likeOf lb.Uid lb.BizID lb.BizName) db.userLikeBizs with ⟨e, err⟩
  rw [hfound] at hb
  cases err with
  | some er =>
    simp only at hb
    by_cases hnf : er = DBError.ErrRecordNotFound
    · subst hnf
      simp only [ne_eq, not_true_eq_false, if_false] at hb
      rcases hcr : gormCreate UserLikeBiz.ID (fun i r => { r with ID := i }) (fs.stmt 1)
          { lb with CreateTime := now, UpdateTime := now, Status := StatusLiked }
          db.userLikeBizs with ⟨t1, e1⟩
      rw [hcr] at hb
      cases e1 with
      | some x => simp at hb
      | none =>
        simp only [Prod.mk.injEq, Ret.ofError_ok] at hb
        obtain ⟨hdb, hup⟩ := hb
        subst hdb
        have hnone := gormFirst_notFound_inv _ _ _ _ _ (by rw [hfound])
        exact ⟨rfl, Prod.ext rfl hup, Or.inl ⟨hnone.2, rfl⟩⟩
    · simp only [ne_eq, hnf, not_false_eq_true, if_true] at hb
      simp at hb
  | none =>
    simp only at hb
    obtain ⟨-, hmem, hp⟩ := gormFirst_found _ _ _ _ _ _ hfound
    rcases hsv : gormSave UserLikeBiz.ID (fun i r => { r with ID := i }) (fs.stmt 1)
        { e with Status := StatusLiked, UpdateTime := now } db.userLikeBizs with ⟨t1, e1⟩
    rw [hsv] at hb
    cases e1 with
    | some x => simp at hb
    | none =>
      simp only [Prod.mk.injEq, Ret.ofError_ok] at hb
      obtain ⟨hdb, hup⟩ := hb
      subst hdb
      exact ⟨rfl, Prod.ext rfl hup, Or.inr ⟨e, hmem, hp, hsv⟩⟩

/-- What a successful `DeleteLikeInfo` did. -/
theorem DeleteLikeInfo_ok (fs : Faults) (now : Int) (lb : UserLikeBiz) (db db' : DB)
    (h : DeleteLikeInfo fs now lb db = (db', Ret.ok)) :
    db'.userCollectionBizs = db.userCollectionBizs ∧
    db'.userLikeBizs = db.userLikeBizs.map (fun r =>
      if likeOf lb.Uid lb.BizID lb.BizName r then
        { r with UpdateTime := now, Status := StatusUnliked } else r) ∧
    (∀ r ∈ db.interactives, sameBiz lb.BizName lb.BizID r = true →
      ({ r with LikeCount := r.LikeCount - 1, UpdateTime := now } : Interactive).fits =
        true) ∧
    db'.interactives = db.interactives.map (fun r =>
      if sameBiz lb.BizName lb.BizID r then
        { r with LikeCount := r.LikeCount - 1, UpdateTime := now } else r) := by
  unfold DeleteLikeInfo at h
  obtain ⟨-, -, hb⟩ := Transaction_ok _ _ _ _ h
  simp only at hb
  rcases hupd : gormUpdates (fs.stmt 0) (likeOf lb.Uid lb.BizID lb.BizName)
      (fun r => { r with UpdateTime := now, Status := StatusUnliked }) (fun _ => true)
      db.userLikeBizs with ⟨t1, e1⟩
  rw [hupd] at hb
  cases e1 with
  | some x => simp at hb
  | none =>
    simp only [Prod.mk.injEq, Ret.ofError_ok] at hb
    obtain ⟨hdb, hup⟩ := hb
    subst hdb
    obtain ⟨-, -, ht1⟩ := gormUpdates_ok _ _ _ _ _ _ hupd
    obtain ⟨-, hfit, ht2⟩ := gormUpdates_ok _ _ _ _ _ _
      (Prod.ext rfl hup : gormUpdates (fs.stmt 1) (sameBiz lb.BizName lb.BizID)
        (fun r => { r with LikeCount := r.LikeCount - 1, UpdateTime := now })
        Interactive.fits db.interactives = (_, none))
    exact ⟨rfl, ht1, hfit, ht2⟩

theorem likeOf_iff (uid : Int) (bizID : Nat) (bizName : GoString) (r : UserLikeBiz) :
    likeOf uid bizID bizName r = true ↔ r.Uid = uid ∧ r.BizID = bizID ∧ r.BizName = bizName := by
  simp [likeOf, and_assoc]

/-- After a successful `InsertLikeInfo` the table holds a liked row for the triple. -/
theorem InsertLikeInfo_liked (fs : Faults) (now : Int) (lb : UserLikeBiz) (db db' : DB)
    (h : InsertLikeInfo fs now lb db = (db', Ret.ok)) :
    ∃ r ∈ db'.userLikeBizs, likeOf lb.Uid lb.BizID lb.BizName r = true ∧
      r.Status = StatusLiked := by
  obtain ⟨-, -, hcase⟩ := InsertLikeInfo_ok fs now lb db db' h
  rcases hcase with ⟨-, hcr⟩ | ⟨e, he, hp, hsv⟩
  · obtain ⟨-, hc⟩ := gormCreate_ok _ _ _ _ _ _ hcr
    rcases hc with ⟨-, ht⟩ | ⟨-, -, ht⟩
    · rw [ht]
      exact ⟨_, List.mem_append_right _ (List.mem_singleton.mpr rfl),
        (likeOf_iff _ _ _ _).mpr ⟨rfl, rfl, rfl⟩, rfl⟩
    · rw [ht]
      exact ⟨_, List.mem_append_right _ (List.mem_singleton.mpr rfl),
        (likeOf_iff _ _ _ _).mpr ⟨rfl, rfl, rfl⟩, rfl⟩
  · obtain ⟨-, hc⟩ := gormSave_ok _ _ _ _ _ _ hsv
    have hkey := (likeOf_iff _ _ _ _).mp hp
    rcases hc with ⟨-, ht⟩ | ⟨-, ⟨r, hr, hid⟩, ht⟩ | ⟨-, -, ht⟩
    · rw [ht]
      exact ⟨_, List.mem_append_right _ (List.mem_singleton.mpr rfl),
        (likeOf_iff _ _ _ _).mpr hkey, rfl⟩
    · rw [ht]
      refine ⟨{ e with Status := StatusLiked, UpdateTime := now }, ?_,
        (likeOf_iff _ _ _ _).mpr hkey, rfl⟩
      exact List.mem_map.mpr ⟨r, hr, by rw [if_pos hid]⟩
    · rw [ht]
      exact ⟨_, List.mem_append_right _ (List.mem_singleton.mpr rfl),
        (likeOf_iff _ _ _ _).mpr hkey, rfl⟩

/-! ## C2: like, then read the like state; unlike, then read it -/

/-- C2. After `InsertLikeInfo` for `(uid, bizID, bizName)` returns `nil`, `GetLikeInfo` for
the triple returns no error and a row of that triple whose status is Liked; and after a
following `DeleteLikeInfo` for the same triple returns `nil`, `GetLikeInfo` returns
`ErrRecordNotFound` (with the zero row). -/
theorem like_then_get (fs : Faults) (now : Int) (lb : UserLikeBiz) (db db1 : DB)
    (fs2 : Faults) (now2 : Int) (lb2 : UserLikeBiz) (db2 : DB)
    (h1 : InsertLikeInfo fs now lb db = (db1, Ret.ok)) :
    ((GetLikeInfo none lb.BizName lb.BizID lb.Uid db1).2 = none ∧
      (GetLikeInfo none lb.BizName lb.BizID lb.Uid db1).1.Status = StatusLiked ∧
      (GetLikeInfo none lb.BizName lb.BizID lb.Uid db1).1.Uid = lb.Uid ∧
      (GetLikeInfo none lb.BizName lb.BizID lb.Uid db1).1.BizID = lb.BizID ∧
      (GetLikeInfo none lb.BizName lb.BizID lb.Uid db1).1.BizName = lb.BizName ∧
      (GetLikeInfo none lb.BizName lb.BizID lb.Uid db1).1 ∈ db1.userLikeBizs) ∧
    (lb2.Uid = lb.Uid → lb2.BizID = lb.BizID → lb2.BizName = lb.BizName →
      DeleteLikeInfo fs2 now2 lb2 db1 = (db2, Ret.ok) →
      GetLikeInfo none lb.BizName lb.BizID lb.Uid db2 =
        (UserLikeBiz.zero, some DBError.ErrRecordNotFound)) := by
  constructor
  · obtain ⟨r, hr, hp, hst⟩ := InsertLikeInfo_liked fs now lb db db1 h1
    have hkey := (likeOf_iff _ _ _ _).mp hp
    obtain ⟨m, hm, hmem, hpm⟩ := gormFirst_of_mem UserLikeBiz.ID UserLikeBiz.zero
      (fun r => decide (r.Uid = lb.Uid) && decide (r.BizName = lb.BizName) &&
        decide (r.BizID = lb.BizID) && decide (r.Status = 1)) db1.userLikeBizs r hr
      (by simp [hkey.1, hkey.2.1, hkey.2.2, hst, StatusLiked])
    unfold GetLikeInfo
    rw [hm]
    simp only [Bool.and_eq_true, decide_eq_true_eq] at hpm
    exact ⟨rfl, hpm.2, hpm.1.1.1, hpm.1.2, hpm.1.1.2, hmem⟩
  · intro hu hb hn h2
    obtain ⟨-, hl, -, -⟩ := DeleteLikeInfo_ok fs2 now2 lb2 db1 db2 h2
    unfold GetLikeInfo
    apply gormFirst_notFound
    intro r hr
    rw [hl, List.mem_map] at hr
    obtain ⟨r0, -, hr0⟩ := hr
    by_cases hp : likeOf lb2.Uid lb2.BizID lb2.BizName r0 = true
    · rw [if_pos hp] at hr0
      subst hr0
      simp [StatusUnliked]
    · rw [if_neg hp] at hr0
      subst hr0
      rw [hu, hb, hn, likeOf_iff] at hp
      simp only [Bool.and_eq_false_imp, Bool.and_eq_true, decide_eq_true_eq,
        decide_eq_false_iff_not]
      intro h
      exact absurd ⟨h.1.1, h.2, h.1.2⟩ hp

/-- C2 at a concrete store: user 7 likes and then unlikes post 1 in the empty store. -/
theorem like_then_get_witness :
    ((GetLikeInfo none (lit "post") 1 7
        (InsertLikeInfo Faults.none 100
          { UserLikeBiz.zero with Uid := 7, BizID := 1, BizName := lit "post" }
          DB.empty).1).2 = none) ∧
    GetLikeInfo none (lit "post") 1 7
        (DeleteLikeInfo Faults.none 101
          { UserLikeBiz.zero with Uid := 7, BizID := 1, BizName := lit "post" }
          (InsertLikeInfo Faults.none 100
            { UserLikeBiz.zero with Uid := 7, BizID := 1, BizName := lit "post" }
            DB.empty).1).1 =
      (UserLikeBiz.zero, some DBError.ErrRecordNotFound) :=
  have h := like_then_get Faults.none 100
    { UserLikeBiz.zero with Uid := 7, BizID := 1, BizName := lit "post" } DB.empty
    (InsertLikeInfo Faults.none 100
      { UserLikeBiz.zero with Uid := 7, BizID := 1, BizName := lit "post" } DB.empty).1
    Faults.none 101 { UserLikeBiz.zero with Uid := 7, BizID := 1, BizName := lit "post" }
    (DeleteLikeInfo Faults.none 101
      { UserLikeBiz.zero with Uid := 7, BizID := 1, BizName := lit "post" }
      (InsertLikeInfo Faults.none 100
        { UserLikeBiz.zero with Uid := 7, BizID := 1, BizName := lit "post" }
        DB.empty).1).1
    (by decide)
  ⟨h.1.1, h.2 rfl rfl rfl (by decide)⟩

/-! ## Lemmas on the like table -/

theorem InsertLikeInfo_fail (fs : Faults) (now : Int) (lb : UserLikeBiz) (db : DB)
    (h : (InsertLikeInfo fs now lb db).2 ≠ Ret.ok) : (InsertLikeInfo fs now lb db).1 = db :=
  Transaction_rollback _ _ _ h

theorem DeleteLikeInfo_fail (fs : Faults) (now : Int) (lb : UserLikeBiz) (db : DB)
    (h : (DeleteLikeInfo fs now lb db).2 ≠ Ret.ok) : (DeleteLikeInfo fs now lb db).1 = db :=
  Transaction_rollback _ _ _ h

theorem likeWF_of_ident (t t' : List UserLikeBiz) (h : t'.map likeIdent = t.map likeIdent)
    (hw : likeWF t) : likeWF t' := by
  have hid : t'.map UserLikeBiz.ID = t.map UserLikeBiz.ID := by
    have := congrArg (List.map (fun x : Int × Int × Nat × GoString => x.1)) h
    simpa [List.map_map, Function.comp, likeIdent] using this
  have htr : t'.map likeTriple = t.map likeTriple := by
    have := congrArg (List.map (fun x : Int × Int × Nat × GoString => x.2)) h
    simpa [List.map_map, Function.comp, likeIdent, likeTriple] using this
  refine ⟨hid ▸ hw.1, ?_, htr ▸ hw.2.2⟩
  intro r hr
  have : r.ID ∈ t'.map UserLikeBiz.ID := List.mem_map.mpr ⟨r, hr, rfl⟩
  rw [hid] at this
  obtain ⟨r0, hr0, h0⟩ := List.mem_map.mp this
  rw [← h0]
  exact hw.2.1 r0 hr0

/-- In a table with distinct primary keys, the row with a given key is determined. -/
theorem eq_of_ID_eq {α : Type} (ID : α → Int) (t : List α) (hnd : (t.map ID).Nodup)
    (a b : α) (ha : a ∈ t) (hb : b ∈ t) (h : ID a = ID b) : a = b :=
  List.inj_on_of_nodup_map hnd ha hb h

theorem DeleteLikeInfo_likes (fs : Faults) (now : Int) (lb : UserLikeBiz) (db : DB) :
    (DeleteLikeInfo fs now lb db).1.userLikeBizs = db.userLikeBizs ∨
      (DeleteLikeInfo fs now lb db).1.userLikeBizs = db.userLikeBizs.map (fun r =>
        if likeOf lb.Uid lb.BizID lb.BizName r then
          { r with UpdateTime := now, Status := StatusUnliked } else r) := by
  rcases h : DeleteLikeInfo fs now lb db with ⟨db', r⟩
  cases r with
  | ok => exact Or.inr (DeleteLikeInfo_ok fs now lb db db' h).2.1
  | err e =>
    have := DeleteLikeInfo_fail fs now lb db (by rw [h]; simp)
    rw [h] at this
    simp only at this
    exact Or.inl (by rw [this])
  | panic =>
    have := DeleteLikeInfo_fail fs now lb db (by rw [h]; simp)
    rw [h] at this
    simp only at this
    exact Or.inl (by rw [this])

theorem DeleteLikeInfo_ident (fs : Faults) (now : Int) (lb : UserLikeBiz) (db : DB) :
    (DeleteLikeInfo fs now lb db).1.userLikeBizs.map likeIdent =
      db.userLikeBizs.map likeIdent := by
  rcases DeleteLikeInfo_likes fs now lb db with h | h
  · rw [h]
  · rw [h, List.map_map]
    apply List.map_congr_left
    intro r _
    simp only [Function.comp]
    by_cases hp : likeOf lb.Uid lb.BizID lb.BizName r = true
    · rw [if_pos hp]; rfl
    · rw [if_neg hp]

/-- `InsertLikeInfo` on a well-formed table keeps every row's key and triple, appends at
most one row, and leaves the table well-formed. -/
theorem InsertLikeInfo_wf (fs : Faults) (now : Int) (lb : UserLikeBiz) (db : DB)
    (hw : likeWF db.userLikeBizs) :
    likeWF (InsertLikeInfo fs now lb db).1.userLikeBizs ∧
      db.userLikeBizs.map likeIdent <+:
        (InsertLikeInfo fs now lb db).1.userLikeBizs.map likeIdent := by
  rcases h : InsertLikeInfo fs now lb db with ⟨db', r⟩
  have hfail : r ≠ Ret.ok → db' = db := by
    intro hr
    have := InsertLikeInfo_fail fs now lb db (by rw [h]; exact hr)
    rw [h] at this
    exact this
  cases r with
  | err e => rw [hfail (by simp)]; exact ⟨hw, List.prefix_refl _⟩
  | panic => rw [hfail (by simp)]; exact ⟨hw, List.prefix_refl _⟩
  | ok =>
    simp only
    obtain ⟨-, -, hcase⟩ := InsertLikeInfo_ok fs now lb db db' h
    have happ : ∀ v : UserLikeBiz, likeTriple v = (lb.Uid, lb.BizID, lb.BizName) →
        v.ID ≠ 0 → (∀ r ∈ db.userLikeBizs, r.ID ≠ v.ID) →
        (∀ r ∈ db.userLikeBizs, likeOf lb.Uid lb.BizID lb.BizName r = false) →
        likeWF (db.userLikeBizs ++ [v]) := by
      intro v hv hv0 hfresh habs
      refine ⟨?_, ?_, ?_⟩
      · rw [List.map_append, List.nodup_append]
        refine ⟨hw.1, by simp, ?_⟩
        intro i hi hi'
        simp only [List.map_cons, List.map_nil, List.mem_singleton] at hi'
        obtain ⟨r, hr, hri⟩ := List.mem_map.mp hi
        exact hfresh r hr (by rw [hri, hi'])
      · intro r hr
        rcases List.mem_append.mp hr with hr | hr
        · exact hw.2.1 r hr
        · rw [List.mem_singleton.mp hr]; exact hv0
      · rw [List.map_append, List.nodup_append]
        refine ⟨hw.2.2, by simp, ?_⟩
        intro k hk hk'
        simp only [List.map_cons, List.map_nil, List.mem_singleton] at hk'
        obtain ⟨r, hr, hrk⟩ := List.mem_map.mp hk
        have hf := habs r hr
        have ht : likeOf lb.Uid lb.BizID lb.BizName r = true := by
          rw [likeOf_iff]
          have : likeTriple r = (lb.Uid, lb.BizID, lb.BizName) := by rw [hrk, hk', hv]
          simp only [likeTriple, Prod.mk.injEq] at this
          exact this
        rw [ht] at hf
        exact absurd hf (by simp)
    rcases hcase with ⟨habs, hcr⟩ | ⟨e, he, hp, hsv⟩
    · obtain ⟨-, hc⟩ := gormCreate_ok _ _ _ _ _ _ hcr
      rcases hc with ⟨-, ht⟩ | ⟨h0, hfresh, ht⟩
      · rw [ht]
        refine ⟨happ _ rfl ?_ ?_ habs, by simp⟩
        · have := nextID_pos (db.userLikeBizs.map UserLikeBiz.ID)
          simp only
          omega
        · intro r hr
          have := lt_nextID (db.userLikeBizs.map UserLikeBiz.ID) r.ID
            (List.mem_map.mpr ⟨r, hr, rfl⟩)
          simp only
          omega
      · rw [ht]
        exact ⟨happ _ rfl h0 hfresh habs, by simp⟩
    · obtain ⟨-, hc⟩ := gormSave_ok _ _ _ _ _ _ hsv
      rcases hc with ⟨h0, -⟩ | ⟨-, -, ht⟩ | ⟨-, hno, -⟩
      · exact absurd h0 (hw.2.1 e he)
      · have hid : db'.userLikeBizs.map likeIdent = db.userLikeBizs.map likeIdent := by
          rw [ht, List.map_map]
          apply List.map_congr_left
          intro r hr
          simp only [Function.comp]
          by_cases hre : r.ID = e.ID
          · rw [if_pos hre]
            have := eq_of_ID_eq UserLikeBiz.ID _ hw.1 r e hr he hre
            subst this
            rfl
          · rw [if_neg hre]
        exact ⟨likeWF_of_ident _ _ hid hw, by rw [hid]⟩
      · exact absurd rfl (hno e he)

theorem LikeReachable.wf (db : DB) (h : LikeReachable db) : likeWF db.userLikeBizs := by
  induction h with
  | init db h => rw [h]; exact ⟨by simp, by simp, by simp⟩
  | insert fs now lb db _ ih => exact (InsertLikeInfo_wf fs now lb db ih).1
  | delete fs now lb db _ ih =>
    exact likeWF_of_ident _ _ (DeleteLikeInfo_ident fs now lb db) ih

/-- In a table without two rows of one triple, at most one row matches a triple. -/
theorem filter_likeOf_length_le (t : List UserLikeBiz) (h : (t.map likeTriple).Nodup)
    (uid : Int) (bizID : Nat) (bizName : GoString) :
    (t.filter (likeOf uid bizID bizName)).length ≤ 1 := by
  induction t with
  | nil => simp
  | cons a as ih =>
    rw [List.map_cons, List.nodup_cons] at h
    by_cases ha : likeOf uid bizID bizName a = true
    · rw [List.filter_cons_of_pos ha]
      have : as.filter (likeOf uid bizID bizName) = [] := by
        rw [List.filter_eq_nil_iff]
        intro b hb hbp
        apply h.1
        have hka := (likeOf_iff _ _ _ _).mp ha
        have hkb := (likeOf_iff _ _ _ _).mp hbp
        refine List.mem_map.mpr ⟨b, hb, ?_⟩
        simp only [likeTriple, hka.1, hka.2.1, hka.2.2, hkb.1, hkb.2.1, hkb.2.2]
      rw [this]
      simp
    · rw [List.filter_cons_of_neg ha]
      exact ih h.2

theorem likeOf_of_ident (uid : Int) (bizID : Nat) (bizName : GoString) (a b : UserLikeBiz)
    (h : likeIdent a = likeIdent b) :
    likeOf uid bizID bizName a = likeOf uid bizID bizName b := by
  simp only [likeIdent, Prod.mk.injEq] at h
  simp only [likeOf, h.2.1, h.2.2.1, h.2.2.2]

/-! ## C3: one like row per triple -/

/-- C3. In every store state reachable from an empty `user_like_bizs` table by calls of
`InsertLikeInfo` and `DeleteLikeInfo`: (1) at most one row has a given
`(uid, bizID, bizName)`; (2) after two calls of `InsertLikeInfo` in a row for one triple,
at least one of which returns `nil`, exactly one row has the triple; (3) `InsertLikeInfo`
keeps the key and triple of every row, in order, and at most appends; (4) `DeleteLikeInfo`
keeps the key and triple of every row and removes none; (5) each row after
`DeleteLikeInfo` is the row before, or that row with status Unliked and the new
`UpdateTime`. -/
theorem like_rows_unique (db : DB) (hreach : LikeReachable db)
    (fs1 : Faults) (now1 : Int) (lb1 : UserLikeBiz) (fs2 : Faults) (now2 : Int)
    (lb2 : UserLikeBiz) (uid : Int) (bizID : Nat) (bizName : GoString) :
    (db.userLikeBizs.filter (likeOf uid bizID bizName)).length ≤ 1 ∧
    (lb2.Uid = lb1.Uid → lb2.BizID = lb1.BizID → lb2.BizName = lb1.BizName →
      ((InsertLikeInfo fs1 now1 lb1 db).2 = Ret.ok ∨
        (InsertLikeInfo fs2 now2 lb2 (InsertLikeInfo fs1 now1 lb1 db).1).2 = Ret.ok) →
      ((InsertLikeInfo fs2 now2 lb2 (InsertLikeInfo fs1 now1 lb1 db).1).1.userLikeBizs.filter
        (likeOf lb1.Uid lb1.BizID lb1.BizName)).length = 1) ∧
    (db.userLikeBizs.map likeIdent <+:
      (InsertLikeInfo fs1 now1 lb1 db).1.userLikeBizs.map likeIdent) ∧
    ((DeleteLikeInfo fs1 now1 lb1 db).1.userLikeBizs.map likeIdent =
      db.userLikeBizs.map likeIdent) ∧
    List.Forall₂
      (fun r r' => r' = r ∨ r' = { r with UpdateTime := now1, Status := StatusUnliked })
      db.userLikeBizs (DeleteLikeInfo fs1 now1 lb1 db).1.userLikeBizs := by
  have hw := LikeReachable.wf db hreach
  refine ⟨filter_likeOf_length_le _ hw.2.2 _ _ _, ?_, (InsertLikeInfo_wf fs1 now1 lb1 db hw).2,
    DeleteLikeInfo_ident fs1 now1 lb1 db, ?_⟩
  · intro hu hb hn hok
    have hr1 : LikeReachable (InsertLikeInfo fs1 now1 lb1 db).1 :=
      LikeReachable.insert fs1 now1 lb1 db hreach
    have hr2 := LikeReachable.insert fs2 now2 lb2 _ hr1
    have hle := filter_likeOf_length_le _ (LikeReachable.wf _ hr2).2.2
      lb1.Uid lb1.BizID lb1.BizName
    have hex : ∃ r ∈ (InsertLikeInfo fs2 now2 lb2
        (InsertLikeInfo fs1 now1 lb1 db).1).1.userLikeBizs,
        likeOf lb1.Uid lb1.BizID lb1.BizName r = true := by
      rcases hok with h1 | h2
      · obtain ⟨r, hr, hp, -⟩ := InsertLikeInfo_liked fs1 now1 lb1 db
          (InsertLikeInfo fs1 now1 lb1 db).1 (Prod.ext rfl h1)
        have hpre := (InsertLikeInfo_wf fs2 now2 lb2 _ (LikeReachable.wf _ hr1)).2
        have hmem : likeIdent r ∈ (InsertLikeInfo fs2 now2 lb2
            (InsertLikeInfo fs1 now1 lb1 db).1).1.userLikeBizs.map likeIdent :=
          hpre.subset (List.mem_map.mpr ⟨r, hr, rfl⟩)
        obtain ⟨r', hr', hid⟩ := List.mem_map.mp hmem
        exact ⟨r', hr', by rw [likeOf_of_ident _ _ _ _ _ hid]; exact hp⟩
      · obtain ⟨r, hr, hp, -⟩ := InsertLikeInfo_liked fs2 now2 lb2 _
          (InsertLikeInfo fs2 now2 lb2 (InsertLikeInfo fs1 now1 lb1 db).1).1
          (Prod.ext rfl h2)
        rw [hu, hb, hn] at hp
        exact ⟨r, hr, hp⟩
    obtain ⟨r, hr, hp⟩ := hex
    have hpos : 0 < ((InsertLikeInfo fs2 now2 lb2
        (InsertLikeInfo fs1 now1 lb1 db).1).1.userLikeBizs.filter
        (likeOf lb1.Uid lb1.BizID lb1.BizName)).length :=
      List.length_pos_of_mem (List.mem_filter.mpr ⟨hr, hp⟩)
    omega
  · rcases DeleteLikeInfo_likes fs1 now1 lb1 db with h | h
    · rw [h]
      exact List.forall₂_same.mpr (fun _ _ => Or.inl rfl)
    · rw [h, List.forall₂_map_right_iff]
      apply List.forall₂_same.mpr
      intro r _
      by_cases hp : likeOf lb1.Uid lb1.BizID lb1.BizName r = true
      · rw [if_pos hp]; exact Or.inr rfl
      · rw [if_neg hp]; exact Or.inl rfl

/-- C3 at a concrete store: user 7 likes post 1 twice, starting from the empty store. -/
theorem like_rows_unique_witness :
    ((InsertLikeInfo Faults.none 101
        { UserLikeBiz.zero with Uid := 7, BizID := 1, BizName := lit "post" }
        (InsertLikeInfo Faults.none 100
          { UserLikeBiz.zero with Uid := 7, BizID := 1, BizName := lit "post" }
          DB.empty).1).1.userLikeBizs.filter (likeOf 7 1 (lit "post"))).length = 1 :=
  (like_rows_unique DB.empty (LikeReachable.init DB.empty rfl) Faults.none 100
    { UserLikeBiz.zero with Uid := 7, BizID := 1, BizName := lit "post" } Faults.none 101
    { UserLikeBiz.zero with Uid := 7, BizID := 1, BizName := lit "post" }
    7 1 (lit "post")).2.1 rfl rfl rfl (Or.inl (by decide))

/-! ## C4: `BatchIncrReadCnt` is all-or-nothing -/

theorem batchLoop_append (fs : Nat → Fault) (nows : Nat → Int) (postIds : List Nat)
    (xs ys : List GoString) (j : Nat) (db : DB) :
    batchLoop fs nows postIds (xs ++ ys) j db =
      match batchLoop fs nows postIds xs j db with
      | (db1, Ret.ok) => batchLoop fs nows postIds ys (j + xs.length) db1
      | (db1, r) => (db1, r) := by
  induction xs generalizing j db with
  | nil => simp [batchLoop]
  | cons x xs ih =>
    rw [List.cons_append]
    simp only [batchLoop, List.length_cons]
    cases postIds[j]? with
    | none => rfl
    | some postId =>
      simp only
      rcases IncrReadCnt (fs j) (nows j) x postId db with ⟨db1, r⟩
      cases r with
      | ok =>
        simp only
        rw [ih]
        have : j + 1 + xs.length = j + (xs.length + 1) := by omega
        rw [this]
      | err e => rfl
      | panic => rfl

/-- C4. `BatchIncrReadCnt` is all-or-nothing. Whenever it does not return `nil` (an error
or the panic of a too short `postIds`), the database after the call is the database before
it. And when the increments for the pairs before position `j` succeed and the increment for
pair `j` fails with the error `e`, `BatchIncrReadCnt` returns `e`, with the database as it
was before the call. -/
theorem BatchIncrReadCnt_all_or_nothing (fs : Faults) (nows : Nat → Int)
    (biz : List GoString) (postIds : List Nat) (db : DB) (j : Nat) (b : GoString)
    (postId : Nat) (dbj dbx : DB) (e : DBError) :
    ((BatchIncrReadCnt fs nows biz postIds db).2 ≠ Ret.ok →
      (BatchIncrReadCnt fs nows biz postIds db).1 = db) ∧
    (fs.begin = none →
      batchLoop fs.stmt nows postIds (biz.take j) 0 db = (dbj, Ret.ok) →
      biz[j]? = some b → postIds[j]? = some postId →
      IncrReadCnt (fs.stmt j) (nows j) b postId dbj = (dbx, Ret.err e) →
      BatchIncrReadCnt fs nows biz postIds db = (db, Ret.err e)) := by
  refine ⟨Transaction_rollback _ _ _, ?_⟩
  intro hbegin hpre hb hid hfail
  have hj : j < biz.length := by
    by_contra hge
    rw [List.getElem?_eq_none (by omega)] at hb
    simp at hb
  have hsplit : biz = biz.take j ++ b :: biz.drop (j + 1) := by
    have hbj : biz[j] = b := by
      rw [List.getElem?_eq_getElem hj] at hb
      exact Option.some.inj hb
    rw [← hbj, ← List.drop_eq_getElem_cons hj, List.take_append_drop]
  have hloop : batchLoop fs.stmt nows postIds biz 0 db = (dbx, Ret.err e) := by
    rw [hsplit, batchLoop_append, hpre]
    simp only [List.length_take, Nat.zero_add, Nat.min_eq_left (Nat.le_of_lt hj), batchLoop,
      hid, hfail]
  unfold BatchIncrReadCnt Transaction
  rw [hbegin]
  simp only [hloop]

/-- C4 at a concrete batch: the write for the second of three pairs fails. -/
theorem BatchIncrReadCnt_all_or_nothing_witness :
    BatchIncrReadCnt ⟨none, fun k => if k = 1 then some 5 else none, none⟩ (fun k => 100 + k)
        [lit "a", lit "b", lit "c"] [1, 2, 3]
        (IncrReadCnt none 50 (lit "c") 3 DB.empty).1 =
      ((IncrReadCnt none 50 (lit "c") 3 DB.empty).1, Ret.err (DBError.storage 5)) :=
  (BatchIncrReadCnt_all_or_nothing ⟨none, fun k => if k = 1 then some 5 else none, none⟩
    (fun k => 100 + k) [lit "a", lit "b", lit "c"] [1, 2, 3]
    (IncrReadCnt none 50 (lit "c") 3 DB.empty).1 1 (lit "b") 2
    (IncrReadCnt none 100 (lit "a") 1 (IncrReadCnt none 50 (lit "c") 3 DB.empty).1).1
    (IncrReadCnt none 100 (lit "a") 1 (IncrReadCnt none 50 (lit "c") 3 DB.empty).1).1
    (DBError.storage 5)).2 rfl (by decide) rfl rfl (by decide)

/-! ## Lemmas for the counters -/

theorem keysWF_append {α : Type} (ID : α → Int) (t : List α) (v : α) (hw : keysWF ID t)
    (h0 : ID v ≠ 0) (hfresh : ∀ r ∈ t, ID r ≠ ID v) : keysWF ID (t ++ [v]) := by
  refine ⟨?_, ?_⟩
  · rw [List.map_append, List.nodup_append]
    refine ⟨hw.1, by simp, ?_⟩
    intro i hi hi'
    simp only [List.map_cons, List.map_nil, List.mem_singleton] at hi'
    obtain ⟨r, hr, hri⟩ := List.mem_map.mp hi
    exact hfresh r hr (by rw [hri, hi'])
  · intro r hr
    rcases List.mem_append.mp hr with hr | hr
    · exact hw.2 r hr
    · rw [List.mem_singleton.mp hr]; exact h0

theorem keysWF_append_next {α : Type} (ID : α → Int) (t : List α) (v : α)
    (hw : keysWF ID t) (hv : ID v = nextID (t.map ID)) : keysWF ID (t ++ [v]) := by
  apply keysWF_append ID t v hw
  · have := nextID_pos (t.map ID); omega
  · intro r hr
    have := lt_nextID (t.map ID) (ID r) (List.mem_map.mpr ⟨r, hr, rfl⟩)
    omega

theorem keysWF_map {α : Type} (ID : α → Int) (t : List α) (g : α → α)
    (hg : ∀ r ∈ t, ID (g r) = ID r) (hw : keysWF ID t) : keysWF ID (t.map g) := by
  have hid : (t.map g).map ID = t.map ID := by
    rw [List.map_map]
    exact List.map_congr_left (fun r hr => hg r hr)
  refine ⟨hid ▸ hw.1, ?_⟩
  intro r hr
  obtain ⟨r0, hr0, h0⟩ := List.mem_map.mp hr
  rw [← h0, hg r0 hr0]
  exact hw.2 r0 hr0

theorem gormCreate_keysWF {α : Type} (ID : α → Int) (setID : Int → α → α)
    (hset : ∀ i r, ID (setID i r) = i) (f : Fault) (v : α) (t t' : List α)
    (h : gormCreate ID setID f v t = (t', none)) (hw : keysWF ID t) : keysWF ID t' := by
  obtain ⟨-, hc⟩ := gormCreate_ok _ _ _ _ _ _ h
  rcases hc with ⟨-, ht⟩ | ⟨h0, hfresh, ht⟩
  · rw [ht]; exact keysWF_append_next ID t _ hw (hset _ _)
  · rw [ht]; exact keysWF_append ID t v hw h0 hfresh

theorem gormSave_keysWF {α : Type} (ID : α → Int) (setID : Int → α → α)
    (hset : ∀ i r, ID (setID i r) = i) (f : Fault) (v : α) (t t' : List α)
    (h : gormSave ID setID f v t = (t', none)) (hw : keysWF ID t) : keysWF ID t' := by
  obtain ⟨-, hc⟩ := gormSave_ok _ _ _ _ _ _ h
  rcases hc with ⟨-, ht⟩ | ⟨-, -, ht⟩ | ⟨h0, hfresh, ht⟩
  · rw [ht]; exact keysWF_append_next ID t _ hw (hset _ _)
  · rw [ht]
    apply keysWF_map ID t _ _ hw
    intro r _
    by_cases hr : ID r = ID v
    · rw [if_pos hr, hr]
    · rw [if_neg hr]
  · rw [ht]; exact keysWF_append ID t v hw h0 hfresh

theorem countP_append_singleton {α : Type} (p : α → Bool) (t : List α) (v : α) :
    (t ++ [v]).countP p = t.countP p + (if p v then 1 else 0) := by
  rw [List.countP_append]
  by_cases h : p v = true <;> simp [List.countP_cons, h]

/-- A rewrite that never turns a row into one satisfying `p` does not raise the count. -/
theorem countP_map_le {α : Type} (p : α → Bool) (g : α → α) (t : List α)
    (h : ∀ r ∈ t, p (g r) = true → p r = true) : (t.map g).countP p ≤ t.countP p := by
  induction t with
  | nil => simp
  | cons a as ih =>
    have ih' := ih (fun r hr => h r (List.mem_cons_of_mem _ hr))
    have ha := h a (List.mem_cons_self _ _)
    simp only [List.map_cons, List.countP_cons]
    by_cases hga : p (g a) = true
    · rw [if_pos hga, if_pos (ha hga)]; omega
    · rw [if_neg hga]
      by_cases hpa : p a = true
      · rw [if_pos hpa]; omega
      · rw [if_neg hpa]; omega

/-- Overwriting the row of one primary key raises a count by at most one. -/
theorem countP_replace_le {α : Type} (ID : α → Int) (p : α → Bool) (v : α) (t : List α)
    (hnd : (t.map ID).Nodup) :
    (t.map (fun r => if ID r = ID v then v else r)).countP p ≤ t.countP p + 1 := by
  induction t with
  | nil => simp
  | cons a as ih =>
    rw [List.map_cons, List.nodup_cons] at hnd
    simp only [List.map_cons, List.countP_cons]
    by_cases ha : ID a = ID v
    · rw [if_pos ha]
      have hrest : (as.map (fun r => if ID r = ID v then v else r)) = as := by
        conv_rhs => rw [← List.map_id as]
        apply List.map_congr_left
        intro r hr
        have : ID r ≠ ID v := by
          intro hrv
          apply hnd.1
          rw [ha, ← hrv]
          exact List.mem_map.mpr ⟨r, hr, rfl⟩
        rw [if_neg this]; rfl
      rw [hrest]
      by_cases h1 : p v = true <;> by_cases h2 : p a = true <;>
        simp only [h1, h2, if_true, if_false, Bool.false_eq_true] <;> omega
    · rw [if_neg ha]
      have := ih hnd.2
      by_cases h2 : p a = true <;>
        simp only [h2, if_true, if_false, Bool.false_eq_true] <;> omega

/-- Deactivating every row that matches `q` lowers the count of active rows by at least one
when some active row matches `q`. -/
theorem countP_deactivate {α : Type} (p q : α → Bool) (upd : α → α) (t : List α)
    (hupd : ∀ r, p (upd r) = false) (r0 : α) (hr0 : r0 ∈ t) (hq : q r0 = true)
    (hp : p r0 = true) :
    (t.map (fun r => if q r then upd r else r)).countP p + 1 ≤ t.countP p := by
  induction t with
  | nil => simp at hr0
  | cons a as ih =>
    simp only [List.map_cons, List.countP_cons]
    have hle : (as.map (fun r => if q r then upd r else r)).countP p ≤ as.countP p := by
      apply countP_map_le
      intro r _ hpr
      by_cases hqr : q r = true
      · rw [if_pos hqr, hupd] at hpr; exact absurd hpr (by simp)
      · rw [if_neg hqr] at hpr; exact hpr
    rcases List.mem_cons.mp hr0 with h | h
    · subst h
      rw [if_pos hq, hupd]
      simp only [hp, if_true]
      simp only [Bool.false_eq_true, if_false]
      omega
    · have := ih h
      by_cases hqa : q a = true
      · rw [if_pos hqa, hupd]
        simp only [Bool.false_eq_true, if_false]
        by_cases hpa : p a = true <;>
          simp only [hpa, if_true, if_false, Bool.false_eq_true] <;> omega
      · rw [if_neg hqa]
        by_cases hpa : p a = true <;>
          simp only [hpa, if_true, if_false, Bool.false_eq_true] <;> omega

/-- Rewriting the rows of key `(biz, id)` so that the counter moves by `δ` keeps it covering
the active rows, when the number of active rows of that key moves by at most `δ` and no
other key gains active rows. -/
theorem Covered_map (cnt : Interactive → Int) (act act' : GoString → Nat → Nat)
    (t : List Interactive) (biz : GoString) (id : Nat) (upd : Interactive → Interactive)
    (δ : Int) (hQ : Covered cnt act t)
    (hkey : ∀ r, (upd r).BizName = r.BizName ∧ (upd r).BizID = r.BizID)
    (hcnt : ∀ r, cnt (upd r) = cnt r + δ)
    (hother : ∀ b i, ¬ (b = biz ∧ i = id) → act' b i ≤ act b i)
    (hsame : (act' biz id : Int) ≤ act biz id + δ)
    (hex : δ ≤ 0 ∨ ∃ r ∈ t, sameBiz biz id r = true) :
    Covered cnt act' (t.map (fun r => if sameBiz biz id r then upd r else r)) := by
  constructor
  · intro r' hr'
    obtain ⟨r, hr, hrr⟩ := List.mem_map.mp hr'
    have hle := hQ.1 r hr
    by_cases hs : sameBiz biz id r = true
    · rw [if_pos hs] at hrr
      subst hrr
      have hk := (sameBiz_iff _ _ _).mp hs
      rw [(hkey r).1, (hkey r).2, hcnt, hk.1, hk.2]
      rw [hk.1, hk.2] at hle
      omega
    · rw [if_neg hs] at hrr
      subst hrr
      have hne : ¬ (r.BizName = biz ∧ r.BizID = id) := fun hc => hs ((sameBiz_iff _ _ _).mpr hc)
      have := hother r.BizName r.BizID hne
      omega
  · intro b i hno
    have hno' : ∀ r ∈ t, sameBiz b i r = false := by
      intro r hr
      have := hno _ (List.mem_map.mpr ⟨r, hr, rfl⟩)
      by_cases hs : sameBiz biz id r = true
      · rw [if_pos hs] at this
        simpa only [sameBiz, (hkey r).1, (hkey r).2] using this
      · rw [if_neg hs] at this; exact this
    have h0 := hQ.2 b i hno'
    by_cases hk : b = biz ∧ i = id
    · obtain ⟨rfl, rfl⟩ := hk
      rcases hex with hδ | ⟨r, hr, hs⟩
      · omega
      · have := hno' r hr
        rw [hs] at this
        exact absurd this (by simp)
    · have := hother b i hk
      omega

/-- Appending the first counter row of key `(biz, id)`, with counter `c0`, keeps the counter
covering the active rows, when the active rows of that key number at most `c0` more than
before and no other key gains active rows. -/
theorem Covered_append (cnt : Interactive → Int) (act act' : GoString → Nat → Nat)
    (t : List Interactive) (biz : GoString) (id : Nat) (v : Interactive) (c0 : Int)
    (hQ : Covered cnt act t) (hno : ∀ r ∈ t, sameBiz biz id r = false)
    (hv : v.BizName = biz ∧ v.BizID = id) (hc : cnt v = c0)
    (hother : ∀ b i, ¬ (b = biz ∧ i = id) → act' b i ≤ act b i)
    (hsame : (act' biz id : Int) ≤ act biz id + c0) :
    Covered cnt act' (t ++ [v]) := by
  have hk0 := hQ.2 biz id hno
  constructor
  · intro r hr
    rcases List.mem_append.mp hr with hr | hr
    · have hle := hQ.1 r hr
      have hne : ¬ (r.BizName = biz ∧ r.BizID = id) := by
        intro hc
        have := hno r hr
        rw [(sameBiz_iff _ _ _).mpr hc] at this
        exact absurd this (by simp)
      have := hother r.BizName r.BizID hne
      omega
    · rw [List.mem_singleton.mp hr, hv.1, hv.2, hc]
      omega
  · intro b i hnone
    have hno' : ∀ r ∈ t, sameBiz b i r = false :=
      fun r hr => hnone r (List.mem_append_left _ hr)
    have h0 := hQ.2 b i hno'
    by_cases hk : b = biz ∧ i = id
    · obtain ⟨rfl, rfl⟩ := hk
      have := hnone v (List.mem_append_right _ (List.mem_singleton.mpr rfl))
      rw [(sameBiz_iff _ _ _).mpr hv] at this
      exact absurd this (by simp)
    · have := hother b i hk
      omega

/-- An upsert that moves the counter of key `(biz, id)` by `δ ≥ 0` (a new row starts at
`δ`) keeps it covering the active rows, under the same conditions. -/
theorem Covered_upsert (cnt : Interactive → Int) (act act' : GoString → Nat → Nat)
    (f : Fault) (t t' : List Interactive) (v : Interactive)
    (upd : Interactive → Interactive) (δ : Int)
    (h : gormUpsert f v upd t = (t', none)) (hQ : Covered cnt act t)
    (hkey : ∀ r, (upd r).BizName = r.BizName ∧ (upd r).BizID = r.BizID)
    (hcnt : ∀ r, cnt (upd r) = cnt r + δ) (hv : ∀ i, cnt { v with ID := i } = δ)
    (hother : ∀ b i, ¬ (b = v.BizName ∧ i = v.BizID) → act' b i ≤ act b i)
    (hsame : (act' v.BizName v.BizID : Int) ≤ act v.BizName v.BizID + δ) :
    Covered cnt act' t' := by
  obtain ⟨-, hcase⟩ := gormUpsert_ok _ _ _ _ _ h
  rcases hcase with ⟨hno, ht⟩ | ⟨hex, -, ht⟩
  · rw [ht]
    exact Covered_append cnt act act' t v.BizName v.BizID _ δ hQ hno ⟨rfl, rfl⟩ (hv _) hother
      hsame
  · rw [ht]
    exact Covered_map cnt act act' t v.BizName v.BizID upd δ hQ hkey hcnt hother hsame
      (Or.inr hex)

/-! ## Lemmas on the collection operations and the invariant -/

theorem gormCreate_count {α : Type} (ID : α → Int) (setID : Int → α → α) (p : α → Bool)
    (f : Fault) (v : α) (t t' : List α) (hp : ∀ i, p (setID i v) = p v)
    (h : gormCreate ID setID f v t = (t', none)) :
    (p v = false → t'.countP p ≤ t.countP p) ∧ t'.countP p ≤ t.countP p + 1 := by
  obtain ⟨-, hc⟩ := gormCreate_ok _ _ _ _ _ _ h
  have happ : ∀ w, p w = p v →
      ((p v = false → (t ++ [w]).countP p ≤ t.countP p) ∧
        (t ++ [w]).countP p ≤ t.countP p + 1) := by
    intro w hw
    rw [countP_append_singleton, hw]
    constructor
    · intro hv; rw [hv]; simp
    · by_cases hv : p v = true
      · rw [if_pos hv]
      · rw [if_neg hv]; omega
  rcases hc with ⟨-, ht⟩ | ⟨-, -, ht⟩
  · rw [ht]; exact happ _ (hp _)
  · rw [ht]; exact happ _ rfl

theorem gormSave_count {α : Type} (ID : α → Int) (setID : Int → α → α) (p : α → Bool)
    (f : Fault) (v : α) (t t' : List α) (hp : ∀ i, p (setID i v) = p v)
    (hnd : (t.map ID).Nodup) (h : gormSave ID setID f v t = (t', none)) :
    (p v = false → t'.countP p ≤ t.countP p) ∧ t'.countP p ≤ t.countP p + 1 := by
  obtain ⟨-, hc⟩ := gormSave_ok _ _ _ _ _ _ h
  have happ : ∀ w, p w = p v →
      ((p v = false → (t ++ [w]).countP p ≤ t.countP p) ∧
        (t ++ [w]).countP p ≤ t.countP p + 1) := by
    intro w hw
    rw [countP_append_singleton, hw]
    constructor
    · intro hv; rw [hv]; simp
    · by_cases hv : p v = true
      · rw [if_pos hv]
      · rw [if_neg hv]; omega
  rcases hc with ⟨-, ht⟩ | ⟨-, -, ht⟩ | ⟨-, -, ht⟩
  · rw [ht]; exact happ _ (hp _)
  · rw [ht]
    refine ⟨?_, countP_replace_le ID p v t hnd⟩
    intro hv
    apply countP_map_le
    intro r _ hpr
    by_cases hr : ID r = ID v
    · rw [if_pos hr, hv] at hpr; exact absurd hpr (by simp)
    · rw [if_neg hr] at hpr; exact hpr
  · rw [ht]; exact happ _ rfl

theorem collectionOf_iff (uid : Int) (bizID : Nat) (bizName : GoString)
    (r : UserCollectionBiz) :
    collectionOf uid bizID bizName r = true ↔
      r.Uid = uid ∧ r.BizID = bizID ∧ r.BizName = bizName := by
  simp [collectionOf, and_assoc]

/-- What a successful `InsertCollectionBiz` did. -/
theorem InsertCollectionBiz_ok (fs : Faults) (now : Int) (cb : UserCollectionBiz)
    (db db' : DB) (h : InsertCollectionBiz fs now cb db = (db', Ret.ok)) :
    db'.userLikeBizs = db.userLikeBizs ∧
    gormUpsert (fs.stmt 2)
      { Interactive.zero with
        BizName := cb.BizName, BizID := cb.BizID, CollectCount := 1, UpdateTime := now,
        CreateTime := now }
      (fun r => { r with CollectCount := r.CollectCount + 1, UpdateTime := now })
      db.interactives = (db'.interactives, none) ∧
    (((∀ r ∈ db.userCollectionBizs, collectionOf cb.Uid cb.BizID cb.BizName r = false) ∧
        gormCreate UserCollectionBiz.ID (fun i r => { r with ID := i }) (fs.stmt 1)
          { cb with CreateTime := now, UpdateTime := now, Status := StatusCollection }
          db.userCollectionBizs = (db'.userCollectionBizs, none)) ∨
      (∃ e, e ∈ db.userCollectionBizs ∧ collectionOf cb.Uid cb.BizID cb.BizName e = true ∧
        (gormFirst UserCollectionBiz.ID UserCollectionBiz.zero none
          (collectionOf cb.Uid cb.BizID cb.BizName) db.userCollectionBizs).1 = e ∧
        gormSave UserCollectionBiz.ID (fun i r => { r with ID := i }) (fs.stmt 1)
          { e with Status := StatusCollection, UpdateTime := now }
          db.userCollectionBizs = (db'.userCollectionBizs, none))) := by
  unfold InsertCollectionBiz at h
  obtain ⟨-, -, hb⟩ := Transaction_ok _ _ _ _ h
  simp only at hb
  rcases hfound : gormFirst UserCollectionBiz.ID UserCollectionBiz.zero (fs.stmt 0)
      (collectionOf cb.Uid cb.BizID cb.BizName) db.userCollectionBizs with ⟨e, err⟩
  rw [hfound] at hb
  cases err with
  | some er =>
    simp only at hb
    by_cases hnf : er = DBError.ErrRecordNotFound
    · subst hnf
      simp only [ne_eq, not_true_eq_false, if_false] at hb
      rcases hcr : gormCreate UserCollectionBiz.ID (fun i r => { r with ID := i })
          (fs.stmt 1)
          { cb with CreateTime := now, UpdateTime := now, Status := StatusCollection }
          db.userCollectionBizs with ⟨t1, e1⟩
      rw [hcr] at hb
      cases e1 with
      | some x => simp at hb
      | none =>
        simp only [Prod.mk.injEq, Ret.ofError_ok] at hb
        obtain ⟨hdb, hup⟩ := hb
        subst hdb
        have hnone := gormFirst_notFound_inv _ _ _ _ _ (by rw [hfound])
        exact ⟨rfl, Prod.ext rfl hup, Or.inl ⟨hnone.2, rfl⟩⟩
    · simp only [ne_eq, hnf, not_false_eq_true, if_true] at hb
      simp at hb
  | none =>
    simp only at hb
    obtain ⟨hf0, hmem, hp⟩ := gormFirst_found _ _ _ _ _ _ hfound
    rcases hsv : gormSave UserCollectionBiz.ID (fun i r => { r with ID := i }) (fs.stmt 1)
        { e with Status := StatusCollection, UpdateTime := now }
        db.userCollectionBizs with ⟨t1, e1⟩
    rw [hsv] at hb
    cases e1 with
    | some x => simp at hb
    | none =>
      simp only [Prod.mk.injEq, Ret.ofError_ok] at hb
      obtain ⟨hdb, hup⟩ := hb
      subst hdb
      refine ⟨rfl, Prod.ext rfl hup, Or.inr ⟨e, hmem, hp, ?_, hsv⟩⟩
      rw [← hf0, hfound]

/-- What a successful `DeleteCollectionBiz` did. -/
theorem DeleteCollectionBiz_ok (fs : Faults) (now : Int) (cb : UserCollectionBiz)
    (db db' : DB) (h : DeleteCollectionBiz fs now cb db = (db', Ret.ok)) :
    db'.userLikeBizs = db.userLikeBizs ∧
    db'.userCollectionBizs = db.userCollectionBizs.map (fun r =>
      if collectionIn cb.Uid cb.BizID cb.BizName cb.CollectionId r then
        { r with UpdateTime := now, Status := StatusUnCollection } else r) ∧
    (∀ r ∈ db.interactives, sameBiz cb.BizName cb.BizID r = true →
      ({ r with CollectCount := r.CollectCount - 1, UpdateTime := now } : Interactive).fits =
        true) ∧
    db'.interactives = db.interactives.map (fun r =>
      if sameBiz cb.BizName cb.BizID r then
        { r with CollectCount := r.CollectCount - 1, UpdateTime := now } else r) := by
  unfold DeleteCollectionBiz at h
  obtain ⟨-, -, hb⟩ := Transaction_ok _ _ _ _ h
  simp only at hb
  rcases hupd : gormUpdates (fs.stmt 0)
      (collectionIn cb.Uid cb.BizID cb.BizName cb.CollectionId)
      (fun r => { r with UpdateTime := now, Status := StatusUnCollection }) (fun _ => true)
      db.userCollectionBizs with ⟨t1, e1⟩
  rw [hupd] at hb
  cases e1 with
  | some x => simp at hb
  | none =>
    simp only [Prod.mk.injEq, Ret.ofError_ok] at hb
    obtain ⟨hdb, hup⟩ := hb
    subst hdb
    obtain ⟨-, -, ht1⟩ := gormUpdates_ok _ _ _ _ _ _ hupd
    obtain ⟨-, hfit, ht2⟩ := gormUpdates_ok _ _ _ _ _ _
      (Prod.ext rfl hup : gormUpdates (fs.stmt 1) (sameBiz cb.BizName cb.BizID)
        (fun r => { r with CollectCount := r.CollectCount - 1, UpdateTime := now })
        Interactive.fits db.interactives = (_, none))
    exact ⟨rfl, ht1, hfit, ht2⟩

theorem readCount_upsert (f : Fault) (t t' : List Interactive) (v : Interactive)
    (upd : Interactive → Interactive) (h : gormUpsert f v upd t = (t', none))
    (hv : 0 ≤ v.ReadCount) (hupd : ∀ r, 0 ≤ r.ReadCount → 0 ≤ (upd r).ReadCount)
    (ht : ∀ r ∈ t, 0 ≤ r.ReadCount) : ∀ r ∈ t', 0 ≤ r.ReadCount := by
  obtain ⟨-, hcase⟩ := gormUpsert_ok _ _ _ _ _ h
  rcases hcase with ⟨-, ht'⟩ | ⟨-, -, ht'⟩
  · rw [ht']
    intro r hr
    rcases List.mem_append.mp hr with hr | hr
    · exact ht r hr
    · rw [List.mem_singleton.mp hr]; exact hv
  · rw [ht']
    intro r' hr'
    obtain ⟨r, hr, hrr⟩ := List.mem_map.mp hr'
    by_cases hs : sameBiz v.BizName v.BizID r = true
    · rw [if_pos hs] at hrr; rw [← hrr]; exact hupd r (ht r hr)
    · rw [if_neg hs] at hrr; rw [← hrr]; exact ht r hr

theorem readCount_map (t : List Interactive) (q : Interactive → Bool)
    (upd : Interactive → Interactive) (hupd : ∀ r, (upd r).ReadCount = r.ReadCount)
    (ht : ∀ r ∈ t, 0 ≤ r.ReadCount) :
    ∀ r ∈ t.map (fun r => if q r then upd r else r), 0 ≤ r.ReadCount := by
  intro r' hr'
  obtain ⟨r, hr, hrr⟩ := List.mem_map.mp hr'
  by_cases hs : q r = true
  · rw [if_pos hs] at hrr; rw [← hrr, hupd]; exact ht r hr
  · rw [if_neg hs] at hrr; rw [← hrr]; exact ht r hr

theorem CountersInv_incrRead (f : Fault) (now : Int) (biz : GoString) (postId : Nat)
    (db db' : DB) (h : IncrReadCnt f now biz postId db = (db', Ret.ok))
    (hI : CountersInv db) : CountersInv db' := by
  obtain ⟨hl, hc, hu⟩ := IncrReadCnt_ok f now biz postId db db' h
  obtain ⟨h1, h2, h3, h4, h5⟩ := hI
  refine ⟨hl ▸ h1, hc ▸ h2, ?_, ?_, ?_⟩
  · exact readCount_upsert _ _ _ _ _ hu (by simp) (fun r hr => by simp only; omega) h3
  · rw [hl]
    exact Covered_upsert Interactive.LikeCount _ _ _ _ _ _ _ 0 hu h4
      (fun _ => ⟨rfl, rfl⟩) (fun _ => (Int.add_zero _).symm) (fun _ => rfl)
      (fun _ _ _ => Nat.le_refl _) (by omega)
  · rw [hc]
    exact Covered_upsert Interactive.CollectCount _ _ _ _ _ _ _ 0 hu h5
      (fun _ => ⟨rfl, rfl⟩) (fun _ => (Int.add_zero _).symm) (fun _ => rfl)
      (fun _ _ _ => Nat.le_refl _) (by omega)

theorem liked_false_of_ne (b : GoString) (i : Nat) (v : UserLikeBiz)
    (h : ¬ (b = v.BizName ∧ i = v.BizID)) : liked b i v = false := by
  cases hl : liked b i v with
  | false => rfl
  | true =>
    simp only [liked, Bool.and_eq_true, decide_eq_true_eq] at hl
    exact absurd ⟨hl.1.1.symm, hl.1.2.symm⟩ h

theorem collected_false_of_ne (b : GoString) (i : Nat) (v : UserCollectionBiz)
    (h : ¬ (b = v.BizName ∧ i = v.BizID)) : collected b i v = false := by
  cases hl : collected b i v with
  | false => rfl
  | true =>
    simp only [collected, Bool.and_eq_true, decide_eq_true_eq] at hl
    exact absurd ⟨hl.1.1.symm, hl.1.2.symm⟩ h

theorem CountersInv_insertLike (fs : Faults) (now : Int) (lb : UserLikeBiz) (db db' : DB)
    (h : InsertLikeInfo fs now lb db = (db', Ret.ok)) (hI : CountersInv db) :
    CountersInv db' := by
  obtain ⟨hc, hu, hcase⟩ := InsertLikeInfo_ok fs now lb db db' h
  obtain ⟨h1, h2, h3, h4, h5⟩ := hI
  have hlikes : keysWF UserLikeBiz.ID db'.userLikeBizs ∧
      ∀ b i, (¬ (b = lb.BizName ∧ i = lb.BizID) →
          db'.userLikeBizs.countP (liked b i) ≤ db.userLikeBizs.countP (liked b i)) ∧
        db'.userLikeBizs.countP (liked b i) ≤ db.userLikeBizs.countP (liked b i) + 1 := by
    rcases hcase with ⟨-, hcr⟩ | ⟨e, -, hp, hsv⟩
    · refine ⟨gormCreate_keysWF _ _ (fun _ _ => rfl) _ _ _ _ hcr h1, ?_⟩
      intro b i
      have := gormCreate_count UserLikeBiz.ID _ (liked b i) _ _ _ _ (fun _ => rfl) hcr
      exact ⟨fun hne => this.1 (liked_false_of_ne b i _ hne), this.2⟩
    · refine ⟨gormSave_keysWF _ _ (fun _ _ => rfl) _ _ _ _ hsv h1, ?_⟩
      intro b i
      have := gormSave_count UserLikeBiz.ID _ (liked b i) _ _ _ _ (fun _ => rfl) h1.1 hsv
      have hk := (likeOf_iff _ _ _ _).mp hp
      refine ⟨fun hne => this.1 (liked_false_of_ne b i _ ?_), this.2⟩
      simp only [hk.2.1, hk.2.2]
      exact hne
  refine ⟨hlikes.1, hc ▸ h2, ?_, ?_, ?_⟩
  · exact readCount_upsert _ _ _ _ _ hu (by simp [Interactive.zero]) (fun r hr => hr) h3
  · exact Covered_upsert Interactive.LikeCount _ _ _ _ _ _ _ 1 hu h4
      (fun _ => ⟨rfl, rfl⟩) (fun _ => rfl) (fun _ => rfl)
      (fun b i hne => (hlikes.2 b i).1 hne)
      (by have := (hlikes.2 lb.BizName lb.BizID).2; simp only; omega)
  · rw [hc]
    exact Covered_upsert Interactive.CollectCount _ _ _ _ _ _ _ 0 hu h5
      (fun _ => ⟨rfl, rfl⟩) (fun _ => (Int.add_zero _).symm) (fun _ => rfl)
      (fun _ _ _ => Nat.le_refl _) (by omega)

theorem CountersInv_insertCollection (fs : Faults) (now : Int) (cb : UserCollectionBiz)
    (db db' : DB) (h : InsertCollectionBiz fs now cb db = (db', Ret.ok))
    (hI : CountersInv db) : CountersInv db' := by
  obtain ⟨hl, hu, hcase⟩ := InsertCollectionBiz_ok fs now cb db db' h
  obtain ⟨h1, h2, h3, h4, h5⟩ := hI
  have hcols : keysWF UserCollectionBiz.ID db'.userCollectionBizs ∧
      ∀ b i, (¬ (b = cb.BizName ∧ i = cb.BizID) →
          db'.userCollectionBizs.countP (collected b i) ≤
            db.userCollectionBizs.countP (collected b i)) ∧
        db'.userCollectionBizs.countP (collected b i) ≤
          db.userCollectionBizs.countP (collected b i) + 1 := by
    rcases hcase with ⟨-, hcr⟩ | ⟨e, -, hp, -, hsv⟩
    · refine ⟨gormCreate_keysWF _ _ (fun _ _ => rfl) _ _ _ _ hcr h2, ?_⟩
      intro b i
      have := gormCreate_count UserCollectionBiz.ID _ (collected b i) _ _ _ _
        (fun _ => rfl) hcr
      exact ⟨fun hne => this.1 (collected_false_of_ne b i _ hne), this.2⟩
    · refine ⟨gormSave_keysWF _ _ (fun _ _ => rfl) _ _ _ _ hsv h2, ?_⟩
      intro b i
      have := gormSave_count UserCollectionBiz.ID _ (collected b i) _ _ _ _
        (fun _ => rfl) h2.1 hsv
      have hk := (collectionOf_iff _ _ _ _).mp hp
      refine ⟨fun hne => this.1 (collected_false_of_ne b i _ ?_), this.2⟩
      simp only [hk.2.1, hk.2.2]
      exact hne
  refine ⟨hl ▸ h1, hcols.1, ?_, ?_, ?_⟩
  · exact readCount_upsert _ _ _ _ _ hu (by simp [Interactive.zero]) (fun r hr => hr) h3
  · rw [hl]
    exact Covered_upsert Interactive.LikeCount _ _ _ _ _ _ _ 0 hu h4
      (fun _ => ⟨rfl, rfl⟩) (fun _ => (Int.add_zero _).symm) (fun _ => rfl)
      (fun _ _ _ => Nat.le_refl _) (by omega)
  · exact Covered_upsert Interactive.CollectCount _ _ _ _ _ _ _ 1 hu h5
      (fun _ => ⟨rfl, rfl⟩) (fun _ => rfl) (fun _ => rfl)
      (fun b i hne => (hcols.2 b i).1 hne)
      (by have := (hcols.2 cb.BizName cb.BizID).2; simp only; omega)

theorem CountersInv_deleteLike (fs : Faults) (now : Int) (lb : UserLikeBiz) (db db' : DB)
    (hp : ∃ r ∈ db.userLikeBizs,
      likeOf lb.Uid lb.BizID lb.BizName r = true ∧ r.Status = StatusLiked)
    (h : DeleteLikeInfo fs now lb db = (db', Ret.ok)) (hI : CountersInv db) :
    CountersInv db' := by
  obtain ⟨hc, hl, -, hi⟩ := DeleteLikeInfo_ok fs now lb db db' h
  obtain ⟨h1, h2, h3, h4, h5⟩ := hI
  have hoff : ∀ b i (r : UserLikeBiz),
      liked b i { r with UpdateTime := now, Status := StatusUnliked } = false := by
    intro b i r
    simp [liked, StatusUnliked, StatusLiked]
  refine ⟨?_, hc ▸ h2, ?_, ?_, ?_⟩
  · rw [hl]
    apply keysWF_map _ _ _ _ h1
    intro r _
    by_cases hq : likeOf lb.Uid lb.BizID lb.BizName r = true
    · rw [if_pos hq]
    · rw [if_neg hq]
  · rw [hi]
    exact readCount_map _ _ _ (fun _ => rfl) h3
  · rw [hi, hl]
    refine Covered_map Interactive.LikeCount _ _ db.interactives lb.BizName lb.BizID
      (fun r => { r with LikeCount := r.LikeCount - 1, UpdateTime := now }) (-1) h4
      (fun _ => ⟨rfl, rfl⟩) (fun _ => Int.sub_eq_add_neg) ?_ ?_ ?_
    · intro b i _
      apply countP_map_le
      intro r _ hpr
      by_cases hq : likeOf lb.Uid lb.BizID lb.BizName r = true
      · rw [if_pos hq, hoff] at hpr; exact absurd hpr (by simp)
      · rw [if_neg hq] at hpr; exact hpr
    · obtain ⟨r0, hr0, hq0, hs0⟩ := hp
      have hk := (likeOf_iff _ _ _ _).mp hq0
      have := countP_deactivate (liked lb.BizName lb.BizID)
        (likeOf lb.Uid lb.BizID lb.BizName)
        (fun r => { r with UpdateTime := now, Status := StatusUnliked })
        db.userLikeBizs (hoff _ _) r0 hr0 hq0 (by simp [liked, hk.2.1, hk.2.2, hs0])
      beta_reduce at this
      omega
    · exact Or.inl (by omega)
  · rw [hi, hc]
    exact Covered_map Interactive.CollectCount _ _ _ _ _ _ 0 h5 (fun _ => ⟨rfl, rfl⟩)
      (fun _ => (Int.add_zero _).symm) (fun _ _ _ => Nat.le_refl _) (by omega)
      (Or.inl (Int.le_refl _))

theorem CountersInv_deleteCollection (fs : Faults) (now : Int) (cb : UserCollectionBiz)
    (db db' : DB)
    (hp : ∃ r ∈ db.userCollectionBizs,
      collectionIn cb.Uid cb.BizID cb.BizName cb.CollectionId r = true ∧
        r.Status = StatusCollection)
    (h : DeleteCollectionBiz fs now cb db = (db', Ret.ok)) (hI : CountersInv db) :
    CountersInv db' := by
  obtain ⟨hl, hc, -, hi⟩ := DeleteCollectionBiz_ok fs now cb db db' h
  obtain ⟨h1, h2, h3, h4, h5⟩ := hI
  have hoff : ∀ b i (r : UserCollectionBiz),
      collected b i { r with UpdateTime := now, Status := StatusUnCollection } = false := by
    intro b i r
    simp [collected, StatusUnCollection, StatusCollection]
  refine ⟨hl ▸ h1, ?_, ?_, ?_, ?_⟩
  · rw [hc]
    apply keysWF_map _ _ _ _ h2
    intro r _
    by_cases hq : collectionIn cb.Uid cb.BizID cb.BizName cb.CollectionId r = true
    · rw [if_pos hq]
    · rw [if_neg hq]
  · rw [hi]
    exact readCount_map _ _ _ (fun _ => rfl) h3
  · rw [hi, hl]
    exact Covered_map Interactive.LikeCount _ _ _ _ _ _ 0 h4 (fun _ => ⟨rfl, rfl⟩)
      (fun _ => (Int.add_zero _).symm) (fun _ _ _ => Nat.le_refl _) (by omega)
      (Or.inl (Int.le_refl _))
  · rw [hi, hc]
    refine Covered_map Interactive.CollectCount _ _ db.interactives cb.BizName cb.BizID
      (fun r => { r with CollectCount := r.CollectCount - 1, UpdateTime := now }) (-1) h5
      (fun _ => ⟨rfl, rfl⟩) (fun _ => Int.sub_eq_add_neg) ?_ ?_ ?_
    · intro b i _
      apply countP_map_le
      intro r _ hpr
      by_cases hq : collectionIn cb.Uid cb.BizID cb.BizName cb.CollectionId r = true
      · rw [if_pos hq, hoff] at hpr; exact absurd hpr (by simp)
      · rw [if_neg hq] at hpr; exact hpr
    · obtain ⟨r0, hr0, hq0, hs0⟩ := hp
      have hq0' := hq0
      simp only [collectionIn, Bool.and_eq_true] at hq0'
      have hk := (collectionOf_iff _ _ _ _).mp hq0'.1
      have := countP_deactivate (collected cb.BizName cb.BizID)
        (collectionIn cb.Uid cb.BizID cb.BizName cb.CollectionId)
        (fun r => { r with UpdateTime := now, Status := StatusUnCollection })
        db.userCollectionBizs (hoff _ _) r0 hr0 hq0
        (by simp [collected, hk.2.1, hk.2.2, hs0])
      beta_reduce at this
      omega
    · exact Or.inl (by omega)

theorem CountersInv_empty : CountersInv DB.empty := by
  refine ⟨⟨by simp [DB.empty], by simp [DB.empty]⟩, ⟨by simp [DB.empty], by simp [DB.empty]⟩,
    by simp [DB.empty], ⟨by simp [DB.empty], by simp [DB.empty]⟩,
    ⟨by simp [DB.empty], by simp [DB.empty]⟩⟩

theorem Reachable.countersInv (db : DB) (h : Reachable true db) : CountersInv db := by
  induction h with
  | empty => exact CountersInv_empty
  | incrRead f now biz postId db db' _ hok ih => exact CountersInv_incrRead _ _ _ _ _ _ hok ih
  | insertLike fs now lb db db' _ hok ih => exact CountersInv_insertLike _ _ _ _ _ hok ih
  | deleteLike fs now lb db db' _ hp hok ih =>
    exact CountersInv_deleteLike _ _ _ _ _ (hp rfl) hok ih
  | insertCollection fs now cb db db' _ hok ih =>
    exact CountersInv_insertCollection _ _ _ _ _ hok ih
  | deleteCollection fs now cb db db' _ hp hok ih =>
    exact CountersInv_deleteCollection _ _ _ _ _ (hp rfl) hok ih

/-- Whatever the deletes, read counters stay non-negative. -/
theorem Reachable.readCount_nonneg (paired : Bool) (db : DB) (h : Reachable paired db) :
    ∀ r ∈ db.interactives, 0 ≤ r.ReadCount := by
  induction h with
  | empty => simp [DB.empty]
  | incrRead f now biz postId db db' _ hok ih =>
    obtain ⟨-, -, hu⟩ := IncrReadCnt_ok f now biz postId db db' hok
    exact readCount_upsert _ _ _ _ _ hu (by simp) (fun r hr => by simp only; omega) ih
  | insertLike fs now lb db db' _ hok ih =>
    obtain ⟨-, hu, -⟩ := InsertLikeInfo_ok fs now lb db db' hok
    exact readCount_upsert _ _ _ _ _ hu (by simp [Interactive.zero]) (fun r hr => hr) ih
  | deleteLike fs now lb db db' _ _ hok ih =>
    obtain ⟨-, -, -, hi⟩ := DeleteLikeInfo_ok fs now lb db db' hok
    rw [hi]
    exact readCount_map _ _ _ (fun _ => rfl) ih
  | insertCollection fs now cb db db' _ hok ih =>
    obtain ⟨-, hu, -⟩ := InsertCollectionBiz_ok fs now cb db db' hok
    exact readCount_upsert _ _ _ _ _ hu (by simp [Interactive.zero]) (fun r hr => hr) ih
  | deleteCollection fs now cb db db' _ _ hok ih =>
    obtain ⟨-, -, -, hi⟩ := DeleteCollectionBiz_ok fs now cb db db' hok
    rw [hi]
    exact readCount_map _ _ _ (fun _ => rfl) ih

/-! ## C5: counters and negative values -/

/-- C5, as stated, fails: like, unlike, unlike is a sequence of three successful calls from
the empty store, and it leaves the counter row of post 1 with `LikeCount = -1`. -/
theorem counters_nonneg_counterexample :
    Reachable false unlikedTwice ∧
      unlikedTwice.interactives =
        [{ ID := 1, BizID := 1, BizName := lit "post", ReadCount := 0, LikeCount := -1,
           CollectCount := 0, UpdateTime := 102, CreateTime := 100 }] := by
  refine ⟨?_, by decide⟩
  have h1 : Reachable false likedOnce :=
    Reachable.insertLike Faults.none 100 sampleLike DB.empty likedOnce Reachable.empty
      (by decide)
  have h2 : Reachable false unlikedOnce :=
    Reachable.deleteLike Faults.none 101 sampleLike likedOnce unlikedOnce h1
      (fun h => absurd h (by decide)) (by decide)
  exact Reachable.deleteLike Faults.none 102 sampleLike unlikedOnce unlikedTwice h2
    (fun h => absurd h (by decide)) (by decide)

/-- C5, amended. In every store state reachable from the empty store by successful calls in
which each delete is paired with an active row it deactivates, every counter row has
`ReadCount ≥ 0`, a `LikeCount` at least the number of liked rows of its key and a
`CollectCount` at least the number of collected rows of its key, so all three are
non-negative. Without the pairing, `ReadCount ≥ 0` still holds in every reachable state. -/
theorem counters_nonneg_paired (db : DB) (h : Reachable true db) (paired : Bool) (db0 : DB)
    (h0 : Reachable paired db0) :
    (∀ r ∈ db.interactives,
      0 ≤ r.ReadCount ∧ 0 ≤ r.LikeCount ∧ 0 ≤ r.CollectCount ∧
      (db.userLikeBizs.countP (liked r.BizName r.BizID) : Int) ≤ r.LikeCount ∧
      (db.userCollectionBizs.countP (collected r.BizName r.BizID) : Int) ≤ r.CollectCount) ∧
    (∀ r ∈ db0.interactives, 0 ≤ r.ReadCount) := by
  refine ⟨?_, Reachable.readCount_nonneg paired db0 h0⟩
  obtain ⟨-, -, h3, h4, h5⟩ := Reachable.countersInv db h
  intro r hr
  have hl := h4.1 r hr
  have hc := h5.1 r hr
  simp only at hl hc
  refine ⟨h3 r hr, ?_, ?_, hl, hc⟩ <;> omega

/-- C5 amended, at a concrete store: like then unlike, the unlike being paired. -/
theorem counters_nonneg_paired_witness :
    Reachable true unlikedOnce ∧
      ∀ r ∈ unlikedOnce.interactives,
        0 ≤ r.ReadCount ∧ 0 ≤ r.LikeCount ∧ 0 ≤ r.CollectCount :=
  have hreach : Reachable true unlikedOnce :=
    Reachable.deleteLike Faults.none 101 sampleLike likedOnce unlikedOnce
      (Reachable.insertLike Faults.none 100 sampleLike DB.empty likedOnce Reachable.empty
        (by decide))
      (fun _ => ⟨{ ID := 1, Uid := 7, BizID := 1, BizName := lit "post", Status := 1,
                   UpdateTime := 100, CreateTime := 100, Deleted := false },
        by decide, by decide, by decide⟩)
      (by decide)
  ⟨hreach, fun r hr =>
    have h := (counters_nonneg_paired unlikedOnce hreach true unlikedOnce hreach).1 r hr
    ⟨h.1, h.2.1, h.2.2.1⟩⟩

/-! ## C6: collect, then uncollect -/

theorem filter_sameBiz_map (biz : GoString) (id : Nat) (g : Interactive → Interactive)
    (hkey : ∀ r, (g r).BizName = r.BizName ∧ (g r).BizID = r.BizID) (t : List Interactive) :
    (t.map g).filter (sameBiz biz id) = (t.filter (sameBiz biz id)).map g := by
  rw [List.filter_map]
  congr 1
  apply List.filter_congr
  intro r _
  simp only [Function.comp, sameBiz, (hkey r).1, (hkey r).2]

/-- `Get` after a rewrite of the rows of a key that has a row: the rewritten first row. -/
theorem Get_map (biz : GoString) (id : Nat) (upd : Interactive → Interactive)
    (hID : ∀ r, (upd r).ID = r.ID)
    (hkey : ∀ r, (upd r).BizName = r.BizName ∧ (upd r).BizID = r.BizID)
    (t : List Interactive) (hex : ∃ r ∈ t, sameBiz biz id r = true) :
    (gormFirst Interactive.ID Interactive.zero none (sameBiz biz id)
        (t.map (fun r => if sameBiz biz id r then upd r else r))).1 =
      upd (gormFirst Interactive.ID Interactive.zero none (sameBiz biz id) t).1 := by
  have hg : ∀ r, (if sameBiz biz id r = true then upd r else r).BizName = r.BizName ∧
      (if sameBiz biz id r = true then upd r else r).BizID = r.BizID := by
    intro r
    by_cases hs : sameBiz biz id r = true
    · rw [if_pos hs]; exact hkey r
    · rw [if_neg hs]; exact ⟨rfl, rfl⟩
  have hgi : ∀ r, (if sameBiz biz id r = true then upd r else r).ID = r.ID := by
    intro r
    by_cases hs : sameBiz biz id r = true
    · rw [if_pos hs]; exact hID r
    · rw [if_neg hs]
  unfold gormFirst
  simp only
  rw [filter_sameBiz_map biz id _ hg, minByID_map Interactive.ID _ hgi]
  obtain ⟨r, hr, hs⟩ := hex
  cases hm : minByID Interactive.ID (List.filter (sameBiz biz id) t) with
  | none =>
    rw [minByID_eq_none] at hm
    have : r ∈ List.filter (sameBiz biz id) t := List.mem_filter.mpr ⟨hr, hs⟩
    rw [hm] at this
    simp at this
  | some m =>
    have hmem := minByID_mem _ _ _ hm
    simp only [List.mem_filter] at hmem
    simp [hmem.2]

/-- `Get` after the first row of a key was appended: that row. -/
theorem Get_append (biz : GoString) (id : Nat) (v : Interactive) (t : List Interactive)
    (hno : ∀ r ∈ t, sameBiz biz id r = false) (hv : sameBiz biz id v = true) :
    (gormFirst Interactive.ID Interactive.zero none (sameBiz biz id) (t ++ [v])).1 = v ∧
      (gormFirst Interactive.ID Interactive.zero none (sameBiz biz id) t).1 =
        Interactive.zero := by
  have hf : List.filter (sameBiz biz id) t = [] := by
    rw [List.filter_eq_nil_iff]
    intro a ha
    simp [hno a ha]
  constructor
  · unfold gormFirst
    simp [List.filter_append, hf, hv, minByID]
  · rw [gormFirst_notFound _ _ _ _ hno]

/-- A successful `InsertCollectionBiz` raises the collect counter a caller reads by one and
leaves a counter row for the key. -/
theorem collectCountOf_Insert (fs : Faults) (now : Int) (cb : UserCollectionBiz)
    (db db' : DB) (h : InsertCollectionBiz fs now cb db = (db', Ret.ok)) :
    collectCountOf cb.BizName cb.BizID db' = collectCountOf cb.BizName cb.BizID db + 1 ∧
      ∃ r ∈ db'.interactives, sameBiz cb.BizName cb.BizID r = true := by
  obtain ⟨-, hu, -⟩ := InsertCollectionBiz_ok fs now cb db db' h
  obtain ⟨-, hcase⟩ := gormUpsert_ok _ _ _ _ _ hu
  simp only [collectCountOf, Get]
  rcases hcase with ⟨hno, ht⟩ | ⟨hex, -, ht⟩
  · have hv : sameBiz cb.BizName cb.BizID
        { ID := nextID (db.interactives.map (fun r => r.ID)), BizID := cb.BizID,
          BizName := cb.BizName, ReadCount := 0, LikeCount := 0, CollectCount := 1,
          UpdateTime := now, CreateTime := now } = true := by
      simp [sameBiz]
    have := Get_append cb.BizName cb.BizID _ db.interactives hno hv
    refine ⟨?_, ?_⟩
    · rw [ht]
      simp only [Interactive.zero] at this ⊢
      rw [this.1, this.2]
      rfl
    · rw [ht]
      exact ⟨_, List.mem_append_right _ (List.mem_singleton.mpr rfl), hv⟩
  · refine ⟨?_, ?_⟩
    · rw [ht]
      simp only
      rw [Get_map cb.BizName cb.BizID
        (fun r => { r with CollectCount := r.CollectCount + 1, UpdateTime := now })
        (fun _ => rfl) (fun _ => ⟨rfl, rfl⟩) _ hex]
    · rw [ht]
      obtain ⟨r, hr, hs⟩ := hex
      refine ⟨_, List.mem_map.mpr ⟨r, hr, rfl⟩, ?_⟩
      rw [if_pos hs]
      simpa only [sameBiz] using hs

/-- A successful `DeleteCollectionBiz` lowers the collect counter a caller reads by one
when the key has a counter row. -/
theorem collectCountOf_Delete (fs : Faults) (now : Int) (cb : UserCollectionBiz)
    (db db' : DB) (h : DeleteCollectionBiz fs now cb db = (db', Ret.ok))
    (hex : ∃ r ∈ db.interactives, sameBiz cb.BizName cb.BizID r = true) :
    collectCountOf cb.BizName cb.BizID db' = collectCountOf cb.BizName cb.BizID db - 1 := by
  obtain ⟨-, -, -, hi⟩ := DeleteCollectionBiz_ok fs now cb db db' h
  simp only [collectCountOf, Get]
  rw [hi, Get_map cb.BizName cb.BizID
    (fun r => { r with CollectCount := r.CollectCount - 1, UpdateTime := now })
    (fun _ => rfl) (fun _ => ⟨rfl, rfl⟩) _ hex]

/-- `InsertCollectionBiz` for collection `c` keeps the property that every row of the triple
lies in collection `c`. -/
theorem InsertCollectionBiz_allIn (fs : Faults) (now : Int) (cb : UserCollectionBiz)
    (db db' : DB) (h : InsertCollectionBiz fs now cb db = (db', Ret.ok))
    (hall : ∀ r ∈ db.userCollectionBizs, collectionOf cb.Uid cb.BizID cb.BizName r = true →
      r.CollectionId = cb.CollectionId) :
    ∀ r ∈ db'.userCollectionBizs, collectionOf cb.Uid cb.BizID cb.BizName r = true →
      r.CollectionId = cb.CollectionId := by
  obtain ⟨-, -, hcase⟩ := InsertCollectionBiz_ok fs now cb db db' h
  have happ : ∀ v : UserCollectionBiz, v.CollectionId = cb.CollectionId →
      ∀ r ∈ db.userCollectionBizs ++ [v], collectionOf cb.Uid cb.BizID cb.BizName r = true →
        r.CollectionId = cb.CollectionId := by
    intro v hv r hr hp
    rcases List.mem_append.mp hr with hr | hr
    · exact hall r hr hp
    · rw [List.mem_singleton.mp hr]; exact hv
  rcases hcase with ⟨-, hcr⟩ | ⟨e, he, hp, -, hsv⟩
  · obtain ⟨-, hc⟩ := gormCreate_ok _ _ _ _ _ _ hcr
    rcases hc with ⟨-, ht⟩ | ⟨-, -, ht⟩
    · rw [ht]; exact happ _ rfl
    · rw [ht]; exact happ _ rfl
  · have hec := hall e he hp
    obtain ⟨-, hc⟩ := gormSave_ok _ _ _ _ _ _ hsv
    rcases hc with ⟨-, ht⟩ | ⟨-, -, ht⟩ | ⟨-, -, ht⟩
    · rw [ht]; exact happ _ hec
    · rw [ht]
      intro r' hr' hp'
      obtain ⟨r, hr, hrr⟩ := List.mem_map.mp hr'
      by_cases hid : r.ID = e.ID
      · simp only [hid, if_true] at hrr
        rw [← hrr]; exact hec
      · simp only [hid, if_false] at hrr
        subst hrr
        exact hall r hr hp'
    · rw [ht]; exact happ _ hec

/-- C6, as stated, fails in a reachable state. User 7 has post 1 in collection 1. Collecting
it into collection 2 and uncollecting it from collection 2 both succeed, and afterwards
`GetCollectInfo` still finds the collected row (of collection 1), not record-not-found. -/
theorem collect_then_uncollect_counterexample :
    Reachable false collectedInOne ∧
    InsertCollectionBiz Faults.none 101 (sampleCollection 2) collectedInOne =
      (collectedInTwo, Ret.ok) ∧
    DeleteCollectionBiz Faults.none 102 (sampleCollection 2) collectedInTwo =
      (uncollectedFromTwo, Ret.ok) ∧
    GetCollectInfo none (lit "post") 1 7 uncollectedFromTwo =
      ({ ID := 1, Uid := 7, BizID := 1, BizName := lit "post", Status := 1,
         CollectionId := 1, UpdateTime := 101, CreateTime := 100, Deleted := false }, none) := by
  refine ⟨?_, by decide, by decide, by decide⟩
  exact Reachable.insertCollection Faults.none 100 (sampleCollection 1) DB.empty
    collectedInOne Reachable.empty (by decide)

/-- C6, amended. A successful `InsertCollectionBiz` for `(uid, bizID, bizName, c)` followed
by a successful `DeleteCollectionBiz` for the same four values leaves the collect counter
that `Get` reports for `(bizName, bizID)` equal to its value before the two calls, in every
store state; and it leaves `GetCollectInfo(bizName, bizID, uid)` returning
`ErrRecordNotFound` in every store state in which each row of `(uid, bizID, bizName)`
already lies in collection `c` (in particular when there is none). -/
theorem collect_then_uncollect (fs1 : Faults) (now1 : Int) (cb : UserCollectionBiz)
    (fs2 : Faults) (now2 : Int) (cb2 : UserCollectionBiz) (db db1 db2 : DB)
    (hu : cb2.Uid = cb.Uid) (hb : cb2.BizID = cb.BizID) (hn : cb2.BizName = cb.BizName)
    (hc : cb2.CollectionId = cb.CollectionId)
    (h1 : InsertCollectionBiz fs1 now1 cb db = (db1, Ret.ok))
    (h2 : DeleteCollectionBiz fs2 now2 cb2 db1 = (db2, Ret.ok)) :
    collectCountOf cb.BizName cb.BizID db2 = collectCountOf cb.BizName cb.BizID db ∧
    ((∀ r ∈ db.userCollectionBizs, collectionOf cb.Uid cb.BizID cb.BizName r = true →
        r.CollectionId = cb.CollectionId) →
      GetCollectInfo none cb.BizName cb.BizID cb.Uid db2 =
        (UserCollectionBiz.zero, some DBError.ErrRecordNotFound)) := by
  constructor
  · obtain ⟨hinc, hex⟩ := collectCountOf_Insert fs1 now1 cb db db1 h1
    have hdec := collectCountOf_Delete fs2 now2 cb2 db1 db2 h2 (by rw [hn, hb]; exact hex)
    rw [hn, hb] at hdec
    rw [hdec, hinc]
    omega
  · intro hall
    have hall1 := InsertCollectionBiz_allIn fs1 now1 cb db db1 h1 hall
    obtain ⟨-, hcol, -, -⟩ := DeleteCollectionBiz_ok fs2 now2 cb2 db1 db2 h2
    unfold GetCollectInfo
    apply gormFirst_notFound
    intro r hr
    rw [hcol, List.mem_map] at hr
    obtain ⟨r0, hr0, hrr⟩ := hr
    rw [hu, hb, hn, hc] at hrr
    by_cases hp : collectionIn cb.Uid cb.BizID cb.BizName cb.CollectionId r0 = true
    · rw [if_pos hp] at hrr
      subst hrr
      simp [StatusUnCollection]
    · rw [if_neg hp] at hrr
      subst hrr
      simp only [Bool.and_eq_false_imp, Bool.and_eq_true, decide_eq_true_eq,
        decide_eq_false_iff_not]
      intro hk
      exfalso
      apply hp
      have hof : collectionOf cb.Uid cb.BizID cb.BizName r0 = true :=
        (collectionOf_iff _ _ _ _).mpr ⟨hk.1.1, hk.2, hk.1.2⟩
      simp only [collectionIn, Bool.and_eq_true, decide_eq_true_eq]
      exact ⟨hof, hall1 r0 hr0 hof⟩

/-- C6 amended, at a concrete store: collect into collection 1 and uncollect from it. -/
theorem collect_then_uncollect_witness :
    collectCountOf (lit "post") 1
        (DeleteCollectionBiz Faults.none 101 (sampleCollection 1) collectedInOne).1 =
      collectCountOf (lit "post") 1 DB.empty ∧
    GetCollectInfo none (lit "post") 1 7
        (DeleteCollectionBiz Faults.none 101 (sampleCollection 1) collectedInOne).1 =
      (UserCollectionBiz.zero, some DBError.ErrRecordNotFound) :=
  have h := collect_then_uncollect Faults.none 100 (sampleCollection 1) Faults.none 101
    (sampleCollection 1) DB.empty collectedInOne
    (DeleteCollectionBiz Faults.none 101 (sampleCollection 1) collectedInOne).1
    rfl rfl rfl rfl (by decide) (by decide)
  ⟨h.1, h.2 (by decide)⟩

/-! ## Lemmas on strings and runes -/

theorem toRunes_cons (b0 : Fin 256) (rest : GoString) :
    toRunes (b0 :: rest) =
    if b0.val < 0x80 then b0.val :: toRunes rest
    else if b0.val < 0xC0 then runeError :: toRunes rest
    else if b0.val < 0xE0 then
      match rest with
      | b1 :: rest1 =>
        if isCont b1 && decide (0x7F < rune2 b0 b1) then rune2 b0 b1 :: toRunes rest1
        else runeError :: toRunes (b1 :: rest1)
      | [] => [runeError]
    else if b0.val < 0xF0 then
      match rest with
      | b1 :: b2 :: rest2 =>
        if isCont b1 && isCont b2 && decide (0x7FF < rune3 b0 b1 b2) &&
            !(decide (surrogateMin ≤ rune3 b0 b1 b2) && decide (rune3 b0 b1 b2 ≤ surrogateMax))
        then rune3 b0 b1 b2 :: toRunes rest2
        else runeError :: toRunes (b1 :: b2 :: rest2)
      | rest' => runeError :: toRunes rest'
    else if b0.val < 0xF8 then
      match rest with
      | b1 :: b2 :: b3 :: rest3 =>
        if isCont b1 && isCont b2 && isCont b3 && decide (0xFFFF < rune4 b0 b1 b2 b3) &&
            decide (rune4 b0 b1 b2 b3 ≤ maxRune)
        then rune4 b0 b1 b2 b3 :: toRunes rest3
        else runeError :: toRunes (b1 :: b2 :: b3 :: rest3)
      | rest' => runeError :: toRunes rest'
    else runeError :: toRunes rest := by
  cases rest with
  | nil => rfl
  | cons b1 r1 =>
    cases r1 with
    | nil => rfl
    | cons b2 r2 =>
      cases r2 with
      | nil => rfl
      | cons b3 r3 => rfl

theorem byte_val (n : Nat) (h : n < 256) : (byte n).val = n := by
  simp only [byte]; omega

theorem toRunes_encoderune (r : Nat) (hr : validRune r) (rest : GoString) :
    toRunes (encoderune r ++ rest) = r :: toRunes rest := by
  obtain ⟨h1, h2⟩ := hr
  simp only [maxRune, surrogateMin, surrogateMax] at h1 h2
  unfold encoderune
  by_cases c1 : r ≤ 0x7F
  · rw [if_pos c1]
    have hb : (byte r).val = r := byte_val _ (by omega)
    rw [List.singleton_append, toRunes_cons, hb, if_pos (by omega)]
  · rw [if_neg c1]
    by_cases c2 : r ≤ 0x7FF
    · rw [if_pos c2]
      have hb0 : (byte (0xC0 + r / 64)).val = 0xC0 + r / 64 := byte_val _ (by omega)
      have hb1 : (byte (0x80 + r % 64)).val = 0x80 + r % 64 := byte_val _ (by omega)
      have hr2 : rune2 (byte (0xC0 + r / 64)) (byte (0x80 + r % 64)) = r := by
        simp only [rune2, hb0, hb1]; omega
      have hc : isCont (byte (0x80 + r % 64)) = true := by
        simp only [isCont, hb1, Bool.and_eq_true, decide_eq_true_eq]; omega
      rw [List.cons_append, List.cons_append, List.nil_append, toRunes_cons, hb0,
        if_neg (by omega), if_neg (by omega), if_pos (by omega)]
      simp only [hr2, hc, Bool.true_and, decide_eq_true_eq]
      rw [if_pos (by omega)]
    · rw [if_neg c2, if_neg (by simp only [maxRune, surrogateMin, surrogateMax]; omega)]
      by_cases c3 : r ≤ 0xFFFF
      · rw [if_pos c3]
        have hb0 : (byte (0xE0 + r / 4096)).val = 0xE0 + r / 4096 := byte_val _ (by omega)
        have hb1 : (byte (0x80 + r / 64 % 64)).val = 0x80 + r / 64 % 64 :=
          byte_val _ (by omega)
        have hb2 : (byte (0x80 + r % 64)).val = 0x80 + r % 64 := byte_val _ (by omega)
        have hr3 : rune3 (byte (0xE0 + r / 4096)) (byte (0x80 + r / 64 % 64))
            (byte (0x80 + r % 64)) = r := by
          simp only [rune3, hb0, hb1, hb2]; omega
        have hc1 : isCont (byte (0x80 + r / 64 % 64)) = true := by
          simp only [isCont, hb1, Bool.and_eq_true, decide_eq_true_eq]; omega
        have hc2 : isCont (byte (0x80 + r % 64)) = true := by
          simp only [isCont, hb2, Bool.and_eq_true, decide_eq_true_eq]; omega
        simp only [List.cons_append, List.nil_append]
        rw [toRunes_cons, hb0, if_neg (by omega), if_neg (by omega), if_neg (by omega),
          if_pos (by omega)]
        simp only [hr3, hc1, hc2, Bool.true_and]
        rw [if_pos]
        simp only [surrogateMin, surrogateMax, Bool.and_eq_true, decide_eq_true_eq,
          Bool.not_eq_true', Bool.and_eq_false_imp, decide_eq_false_iff_not]
        omega
      · rw [if_neg c3]
        have hb0 : (byte (0xF0 + r / 262144)).val = 0xF0 + r / 262144 :=
          byte_val _ (by omega)
        have hb1 : (byte (0x80 + r / 4096 % 64)).val = 0x80 + r / 4096 % 64 :=
          byte_val _ (by omega)
        have hb2 : (byte (0x80 + r / 64 % 64)).val = 0x80 + r / 64 % 64 :=
          byte_val _ (by omega)
        have hb3 : (byte (0x80 + r % 64)).val = 0x80 + r % 64 := byte_val _ (by omega)
        have hr4 : rune4 (byte (0xF0 + r / 262144)) (byte (0x80 + r / 4096 % 64))
            (byte (0x80 + r / 64 % 64)) (byte (0x80 + r % 64)) = r := by
          simp only [rune4, hb0, hb1, hb2, hb3]; omega
        have hc1 : isCont (byte (0x80 + r / 4096 % 64)) = true := by
          simp only [isCont, hb1, Bool.and_eq_true, decide_eq_true_eq]; omega
        have hc2 : isCont (byte (0x80 + r / 64 % 64)) = true := by
          simp only [isCont, hb2, Bool.and_eq_true, decide_eq_true_eq]; omega
        have hc3 : isCont (byte (0x80 + r % 64)) = true := by
          simp only [isCont, hb3, Bool.and_eq_true, decide_eq_true_eq]; omega
        simp only [List.cons_append, List.nil_append]
        rw [toRunes_cons, hb0, if_neg (by omega), if_neg (by omega), if_neg (by omega),
          if_neg (by omega), if_pos (by omega)]
        simp only [hr4, hc1, hc2, hc3, Bool.true_and]
        rw [if_pos]
        simp only [maxRune, Bool.and_eq_true, decide_eq_true_eq]
        omega

/-- Decoding inverts encoding on scalar values. -/
theorem toRunes_fromRunes (rs : List Nat) (h : ∀ r ∈ rs, validRune r) :
    toRunes (fromRunes rs) = rs := by
  induction rs with
  | nil => rfl
  | cons r rs ih =>
    have : fromRunes (r :: rs) = encoderune r ++ fromRunes rs := by
      simp [fromRunes]
    rw [this, toRunes_encoderune r (h r (List.mem_cons_self _ _)),
      ih (fun x hx => h x (List.mem_cons_of_mem _ hx))]

theorem toRunes_nil : toRunes [] = [] := rfl

theorem validRune_runeError : validRune runeError := by
  simp only [validRune, runeError, maxRune, surrogateMin, surrogateMax]; omega

theorem forall_mem_cons_valid (a : Nat) (l : List Nat) (ha : validRune a)
    (hl : ∀ r ∈ l, validRune r) : ∀ r ∈ a :: l, validRune r := by
  intro r hr
  rcases List.mem_cons.mp hr with h | h
  · rw [h]; exact ha
  · exact hl r h

theorem toRunes_valid_aux (n : Nat) :
    ∀ s : GoString, s.length ≤ n → ∀ r ∈ toRunes s, validRune r := by
  induction n with
  | zero =>
    intro s hs
    have : s = [] := List.eq_nil_of_length_eq_zero (by omega)
    rw [this, toRunes_nil]
    simp
  | succ n ih =>
    intro s hs
    rcases s with _ | ⟨b0, rest⟩
    · rw [toRunes_nil]; simp
    · have hrest : rest.length ≤ n := by simp only [List.length_cons] at hs; omega
      have hb0 := b0.isLt
      rw [toRunes_cons]
      by_cases c1 : b0.val < 0x80
      · rw [if_pos c1]
        exact forall_mem_cons_valid _ _
          (by simp only [validRune, maxRune, surrogateMin, surrogateMax]; omega) (ih rest hrest)
      rw [if_neg c1]
      by_cases c2 : b0.val < 0xC0
      · rw [if_pos c2]
        exact forall_mem_cons_valid _ _ validRune_runeError (ih rest hrest)
      rw [if_neg c2]
      by_cases c3 : b0.val < 0xE0
      · rw [if_pos c3]
        rcases rest with _ | ⟨b1, rest1⟩
        · exact forall_mem_cons_valid _ _ validRune_runeError (by simp)
        · simp only
          have hb1 := b1.isLt
          split_ifs with hc
          · refine forall_mem_cons_valid _ _ ?_
              (ih rest1 (by simp only [List.length_cons] at hrest; omega))
            simp only [validRune, maxRune, surrogateMin, surrogateMax, rune2]
            omega
          · exact forall_mem_cons_valid _ _ validRune_runeError (ih _ hrest)
      rw [if_neg c3]
      by_cases c4 : b0.val < 0xF0
      · rw [if_pos c4]
        rcases rest with _ | ⟨b1, _ | ⟨b2, rest2⟩⟩
        · exact forall_mem_cons_valid _ _ validRune_runeError (ih _ hrest)
        · exact forall_mem_cons_valid _ _ validRune_runeError (ih _ hrest)
        · simp only
          have hb1 := b1.isLt
          have hb2 := b2.isLt
          split_ifs with hc
          · refine forall_mem_cons_valid _ _ ?_
              (ih rest2 (by simp only [List.length_cons] at hrest; omega))
            simp only [Bool.and_eq_true, decide_eq_true_eq, Bool.not_eq_true',
              Bool.and_eq_false_imp, decide_eq_false_iff_not, surrogateMin, surrogateMax] at hc
            simp only [validRune, maxRune, surrogateMin, surrogateMax]
            have : rune3 b0 b1 b2 ≤ 0xFFFF := by simp only [rune3]; omega
            omega
          · exact forall_mem_cons_valid _ _ validRune_runeError (ih _ hrest)
      rw [if_neg c4]
      by_cases c5 : b0.val < 0xF8
      · rw [if_pos c5]
        rcases rest with _ | ⟨b1, _ | ⟨b2, _ | ⟨b3, rest3⟩⟩⟩
        · exact forall_mem_cons_valid _ _ validRune_runeError (ih _ hrest)
        · exact forall_mem_cons_valid _ _ validRune_runeError (ih _ hrest)
        · exact forall_mem_cons_valid _ _ validRune_runeError (ih _ hrest)
        · simp only
          split_ifs with hc
          · refine forall_mem_cons_valid _ _ ?_
              (ih rest3 (by simp only [List.length_cons] at hrest; omega))
            simp only [Bool.and_eq_true, decide_eq_true_eq, maxRune] at hc
            simp only [validRune, maxRune, surrogateMin, surrogateMax]
            omega
          · exact forall_mem_cons_valid _ _ validRune_runeError (ih _ hrest)
      rw [if_neg c5]
      exact forall_mem_cons_valid _ _ validRune_runeError (ih rest hrest)

/-- Every rune that `[]rune(s)` yields is a Unicode scalar value. -/
theorem toRunes_valid (s : GoString) : ∀ r ∈ toRunes s, validRune r :=
  toRunes_valid_aux s.length s (Nat.le_refl _)
theorem utf8Valid_cons (b0 : Fin 256) (rest : GoString) :
    utf8Valid (b0 :: rest) =
    if b0.val < 0x80 then utf8Valid rest
    else if b0.val < 0xC2 then false
    else if b0.val < 0xE0 then
      match rest with
      | b1 :: rest1 => isCont b1 && utf8Valid rest1
      | [] => false
    else if b0.val < 0xF0 then
      match rest with
      | b1 :: b2 :: rest2 =>
        isCont b1 && isCont b2 && (decide (b0.val ≠ 0xE0) || decide (0xA0 ≤ b1.val)) &&
          (decide (b0.val ≠ 0xED) || decide (b1.val ≤ 0x9F)) && utf8Valid rest2
      | _ => false
    else if b0.val < 0xF5 then
      match rest with
      | b1 :: b2 :: b3 :: rest3 =>
        isCont b1 && isCont b2 && isCont b3 &&
          (decide (b0.val ≠ 0xF0) || decide (0x90 ≤ b1.val)) &&
          (decide (b0.val ≠ 0xF4) || decide (b1.val ≤ 0x8F)) && utf8Valid rest3
      | _ => false
    else false := by
  cases rest with
  | nil => rfl
  | cons b1 r1 =>
    cases r1 with
    | nil => rfl
    | cons b2 r2 =>
      cases r2 with
      | nil => rfl
      | cons b3 r3 => rfl

theorem byte_eq (b : Fin 256) (n : Nat) (h : n = b.val) : byte n = b := by
  apply Fin.ext
  have := b.isLt
  simp only [byte]
  omega

theorem isCont_iff (b : Fin 256) : isCont b = true ↔ 0x80 ≤ b.val ∧ b.val ≤ 0xBF := by
  simp [isCont]

theorem encoderune_ascii (b0 : Fin 256) (h : b0.val < 0x80) :
    validRune b0.val ∧ encoderune b0.val = [b0] := by
  refine ⟨by simp only [validRune, maxRune, surrogateMin, surrogateMax]; omega, ?_⟩
  unfold encoderune
  rw [if_pos (by omega), byte_eq b0 _ rfl]

theorem encoderune_rune2 (b0 b1 : Fin 256) (h0 : 0xC2 ≤ b0.val) (h0' : b0.val < 0xE0)
    (h1 : isCont b1 = true) :
    validRune (rune2 b0 b1) ∧ encoderune (rune2 b0 b1) = [b0, b1] := by
  rw [isCont_iff] at h1
  have hlo : 0x7F < rune2 b0 b1 := by simp only [rune2]; omega
  have hhi : rune2 b0 b1 ≤ 0x7FF := by simp only [rune2]; omega
  refine ⟨by simp only [validRune, maxRune, surrogateMin, surrogateMax]; omega, ?_⟩
  unfold encoderune
  rw [if_neg (by omega), if_pos hhi, byte_eq b0 _ (by simp only [rune2]; omega),
    byte_eq b1 _ (by simp only [rune2]; omega)]

theorem encoderune_rune3 (b0 b1 b2 : Fin 256) (h0 : 0xE0 ≤ b0.val) (h0' : b0.val < 0xF0)
    (h1 : isCont b1 = true) (h2 : isCont b2 = true)
    (hE0 : b0.val ≠ 0xE0 ∨ 0xA0 ≤ b1.val) (hED : b0.val ≠ 0xED ∨ b1.val ≤ 0x9F) :
    validRune (rune3 b0 b1 b2) ∧ encoderune (rune3 b0 b1 b2) = [b0, b1, b2] := by
  rw [isCont_iff] at h1 h2
  have hlo : 0x7FF < rune3 b0 b1 b2 := by simp only [rune3]; omega
  have hhi : rune3 b0 b1 b2 ≤ 0xFFFF := by simp only [rune3]; omega
  have hsur : ¬ (0xD800 ≤ rune3 b0 b1 b2 ∧ rune3 b0 b1 b2 ≤ 0xDFFF) := by
    simp only [rune3]; omega
  refine ⟨by simp only [validRune, maxRune, surrogateMin, surrogateMax]; omega, ?_⟩
  unfold encoderune
  rw [if_neg (by omega), if_neg (by omega),
    if_neg (by simp only [maxRune, surrogateMin, surrogateMax]; omega), if_pos hhi,
    byte_eq b0 _ (by simp only [rune3]; omega), byte_eq b1 _ (by simp only [rune3]; omega),
    byte_eq b2 _ (by simp only [rune3]; omega)]

theorem encoderune_rune4 (b0 b1 b2 b3 : Fin 256) (h0 : 0xF0 ≤ b0.val) (h0' : b0.val < 0xF5)
    (h1 : isCont b1 = true) (h2 : isCont b2 = true) (h3 : isCont b3 = true)
    (hF0 : b0.val ≠ 0xF0 ∨ 0x90 ≤ b1.val) (hF4 : b0.val ≠ 0xF4 ∨ b1.val ≤ 0x8F) :
    validRune (rune4 b0 b1 b2 b3) ∧ encoderune (rune4 b0 b1 b2 b3) = [b0, b1, b2, b3] := by
  rw [isCont_iff] at h1 h2 h3
  have hlo : 0xFFFF < rune4 b0 b1 b2 b3 := by simp only [rune4]; omega
  have hhi : rune4 b0 b1 b2 b3 ≤ 0x10FFFF := by simp only [rune4]; omega
  refine ⟨by simp only [validRune, maxRune, surrogateMin, surrogateMax]; omega, ?_⟩
  unfold encoderune
  rw [if_neg (by omega), if_neg (by omega),
    if_neg (by simp only [maxRune, surrogateMin, surrogateMax]; omega), if_neg (by omega),
    byte_eq b0 _ (by simp only [rune4]; omega), byte_eq b1 _ (by simp only [rune4]; omega),
    byte_eq b2 _ (by simp only [rune4]; omega), byte_eq b3 _ (by simp only [rune4]; omega)]

theorem fromRunes_cons (r : Nat) (rs : List Nat) :
    fromRunes (r :: rs) = encoderune r ++ fromRunes rs := by
  simp [fromRunes]

theorem utf8Valid_decompose_aux (n : Nat) :
    ∀ s : GoString, s.length ≤ n → utf8Valid s = true →
      ∃ rs, (∀ r ∈ rs, validRune r) ∧ fromRunes rs = s := by
  induction n with
  | zero =>
    intro s hs _
    have : s = [] := List.eq_nil_of_length_eq_zero (by omega)
    exact ⟨[], by simp, by rw [this]; rfl⟩
  | succ n ih =>
    intro s hs hv
    rcases s with _ | ⟨b0, rest⟩
    · exact ⟨[], by simp, rfl⟩
    · have hrest : rest.length ≤ n := by simp only [List.length_cons] at hs; omega
      rw [utf8Valid_cons] at hv
      have step : ∀ (r : Nat) (pre tail : GoString), validRune r ∧ encoderune r = pre →
          tail.length ≤ n → utf8Valid tail = true →
          ∃ rs, (∀ x ∈ rs, validRune x) ∧ fromRunes rs = pre ++ tail := by
        intro r pre tail hr hlen htail
        obtain ⟨rs, hrs, heq⟩ := ih tail hlen htail
        exact ⟨r :: rs, forall_mem_cons_valid _ _ hr.1 hrs, by rw [fromRunes_cons, hr.2, heq]⟩
      by_cases c1 : b0.val < 0x80
      · rw [if_pos c1] at hv
        exact step _ [b0] rest (encoderune_ascii b0 c1) hrest hv
      rw [if_neg c1] at hv
      by_cases c2 : b0.val < 0xC2
      · rw [if_pos c2] at hv; exact absurd hv (by simp)
      rw [if_neg c2] at hv
      by_cases c3 : b0.val < 0xE0
      · rw [if_pos c3] at hv
        rcases rest with _ | ⟨b1, rest1⟩
        · exact absurd hv (by simp)
        · simp only [Bool.and_eq_true] at hv
          exact step _ [b0, b1] rest1 (encoderune_rune2 b0 b1 (by omega) c3 hv.1)
            (by simp only [List.length_cons] at hrest; omega) hv.2
      rw [if_neg c3] at hv
      by_cases c4 : b0.val < 0xF0
      · rw [if_pos c4] at hv
        rcases rest with _ | ⟨b1, _ | ⟨b2, rest2⟩⟩
        · exact absurd hv (by simp)
        · exact absurd hv (by simp)
        · simp only [Bool.and_eq_true, Bool.or_eq_true, decide_eq_true_eq] at hv
          obtain ⟨⟨⟨⟨h1, h2⟩, hE0⟩, hED⟩, htail⟩ := hv
          exact step _ [b0, b1, b2] rest2
            (encoderune_rune3 b0 b1 b2 (by omega) c4 h1 h2 hE0 hED)
            (by simp only [List.length_cons] at hrest; omega) htail
      rw [if_neg c4] at hv
      by_cases c5 : b0.val < 0xF5
      · rw [if_pos c5] at hv
        rcases rest with _ | ⟨b1, _ | ⟨b2, _ | ⟨b3, rest3⟩⟩⟩
        · exact absurd hv (by simp)
        · exact absurd hv (by simp)
        · exact absurd hv (by simp)
        · simp only [Bool.and_eq_true, Bool.or_eq_true, decide_eq_true_eq] at hv
          obtain ⟨⟨⟨⟨⟨h1, h2⟩, h3⟩, hF0⟩, hF4⟩, htail⟩ := hv
          exact step _ [b0, b1, b2, b3] rest3
            (encoderune_rune4 b0 b1 b2 b3 (by omega) c5 h1 h2 h3 hF0 hF4)
            (by simp only [List.length_cons] at hrest; omega) htail
      rw [if_neg c5] at hv
      exact absurd hv (by simp)

/-- A well-formed UTF-8 string is the encoding of a sequence of scalar values. -/
theorem utf8Valid_decompose (s : GoString) (h : utf8Valid s = true) :
    ∃ rs, (∀ r ∈ rs, validRune r) ∧ fromRunes rs = s :=
  utf8Valid_decompose_aux s.length s (Nat.le_refl _) h

/-- Re-encoding the decoding of a well-formed UTF-8 string gives the string back. -/
theorem fromRunes_toRunes (s : GoString) (h : utf8Valid s = true) :
    fromRunes (toRunes s) = s := by
  obtain ⟨rs, hrs, heq⟩ := utf8Valid_decompose s h
  rw [← heq, toRunes_fromRunes rs hrs]

theorem fromRunes_take_prefix (rs : List Nat) (k : Nat) :
    fromRunes (rs.take k) <+: fromRunes rs := by
  induction rs generalizing k with
  | nil => simp
  | cons r rs ih =>
    cases k with
    | zero => simp [fromRunes]
    | succ k =>
      rw [List.take_succ_cons, fromRunes_cons, fromRunes_cons]
      exact (List.prefix_append_right_inj _).mpr (ih k)

/-! ## C7: `Post.Abstract` -/

theorem Abstract_eq (p : Post) : p.Abstract = fromRunes ((toRunes p.Content).take 128) := by
  unfold Post.Abstract
  simp only
  by_cases h : (toRunes p.Content).length > 128
  · rw [if_pos h]
  · rw [if_neg h, List.take_of_length_le (by omega)]

/-- The runes of the abstract are the first 128 runes of the content. -/
theorem toRunes_Abstract (p : Post) :
    toRunes p.Abstract = (toRunes p.Content).take 128 := by
  rw [Abstract_eq, toRunes_fromRunes]
  intro r hr
  exact toRunes_valid p.Content r (List.mem_of_mem_take hr)

/-- The runes of the abstract are the first `min 128 n` runes of the content, `n` being the
number of runes of the content. -/
theorem toRunes_Abstract_min (p : Post) :
    toRunes p.Abstract =
        (toRunes p.Content).take (min 128 (toRunes p.Content).length) ∧
      (toRunes p.Abstract).length = min 128 (toRunes p.Content).length := by
  have ht := toRunes_Abstract p
  constructor
  · rw [ht]
    by_cases h : (toRunes p.Content).length ≤ 128
    · rw [Nat.min_eq_right h, List.take_of_length_le h, List.take_length]
    · rw [Nat.min_eq_left (by omega)]
  · rw [ht, List.length_take]

/-- C7, as stated, fails on a content that is not well-formed UTF-8. The content is the
single byte `0xFF`: it has one code point (`runeError`), yet the abstract is the three
bytes `EF BF BD`, which is neither the content nor a prefix of it. -/
theorem Abstract_counterexample :
    (toRunes ({ Post.zero with Content := [0xFF] } : Post).Content).length = 1 ∧
    ({ Post.zero with Content := [0xFF] } : Post).Abstract = [0xEF, 0xBF, 0xBD] ∧
    ({ Post.zero with Content := [0xFF] } : Post).Abstract ≠
      ({ Post.zero with Content := [0xFF] } : Post).Content ∧
    ¬ (({ Post.zero with Content := [0xFF] } : Post).Abstract <+:
      ({ Post.zero with Content := [0xFF] } : Post).Content) := by
  refine ⟨by decide, by decide, by decide, ?_⟩
  intro h
  have := h.length_le
  revert this
  decide

/-- C7, amended. For every post `p`, with `n` the number of code points of `p.Content`
(each byte outside a well-formed UTF-8 sequence counting as the one code point U+FFFD): the
code points of `p.Abstract()` are the first `min 128 n` code points of `p.Content`, so they
number at most 128, form a prefix of the code points of `p.Content`, and are all of them
when `n ≤ 128`. When `p.Content` is well-formed UTF-8, `p.Abstract()` is moreover a prefix
of `p.Content` as a string, and equal to it when `n ≤ 128`. -/
theorem Abstract_runes (p : Post) :
    toRunes p.Abstract =
      (toRunes p.Content).take (min 128 (toRunes p.Content).length) ∧
    (toRunes p.Abstract).length = min 128 (toRunes p.Content).length ∧
    (toRunes p.Abstract).length ≤ 128 ∧
    toRunes p.Abstract <+: toRunes p.Content ∧
    ((toRunes p.Content).length ≤ 128 → toRunes p.Abstract = toRunes p.Content) ∧
    (utf8Valid p.Content = true →
      p.Abstract <+: p.Content ∧
      ((toRunes p.Content).length ≤ 128 → p.Abstract = p.Content)) := by
  have ht := toRunes_Abstract p
  refine ⟨(toRunes_Abstract_min p).1, (toRunes_Abstract_min p).2, ?_, ?_, ?_, ?_⟩
  · rw [ht, List.length_take]; omega
  · rw [ht]; exact List.take_prefix _ _
  · intro h
    rw [ht, List.take_of_length_le h]
  · intro hv
    have hrt := fromRunes_toRunes p.Content hv
    constructor
    · have := fromRunes_take_prefix (toRunes p.Content) 128
      rw [hrt, ← Abstract_eq] at this
      exact this
    · intro h
      rw [Abstract_eq, List.take_of_length_le h, hrt]

/-- C7 amended, at a concrete post with the content "héllo". -/
theorem Abstract_runes_witness :
    utf8Valid ({ Post.zero with Content := [0x68, 0xC3, 0xA9, 0x6C, 0x6C, 0x6F] } : Post).Content
      = true ∧
    ({ Post.zero with Content := [0x68, 0xC3, 0xA9, 0x6C, 0x6C, 0x6F] } : Post).Abstract =
      [0x68, 0xC3, 0xA9, 0x6C, 0x6C, 0x6F] :=
  ⟨by decide,
    ((Abstract_runes { Post.zero with Content := [0x68, 0xC3, 0xA9, 0x6C, 0x6C, 0x6F] }
      ).2.2.2.2.2 (by decide)).2 (by decide)⟩

/-! ## C8: first-page set/get round trip -/

theorem abstractAll_eq_map (post : List Post) :
    abstractAll post = post.map (fun p => { p with Content := p.Abstract }) := by
  induction post with
  | nil => rfl
  | cons p ps ih => simp only [abstractAll, List.map_cons, ih]

theorem Redis.Get_Set {β : Type} (key : GoString) (val : β) (minutes : Nat) (c : Redis β) :
    ((c.Set none key val minutes).1.Get none key).2 = Except.ok val := by
  simp [Redis.Get, Redis.Set]

/-- C8. Over a cache whose `Set` and `Get` succeed and a JSON coding whose decoding inverts
its encoding, `SetPubFirstPage(owner, posts)` returns no error and a following
`GetPubFirstPage(owner)` returns no error and a list that matches `posts` one to one, in
order: each returned post is the original with `Content` replaced by its abstract, whose
code points are the first `min 128 n` code points of the original content, every other
field being the original's. -/
theorem firstPage_roundtrip {β : Type} (js : JSON β)
    (hjs : ∀ ps, ∃ b, js.Marshal ps = Except.ok b ∧ js.Unmarshal b = Except.ok ps)
    (owner : Nat) (posts : List Post) (c : Redis β) :
    (SetPubFirstPage js none owner posts c).2.2 = none ∧
    (GetPubFirstPage js none owner (SetPubFirstPage js none owner posts c).1).2.2 = none ∧
    (GetPubFirstPage js none owner (SetPubFirstPage js none owner posts c).1).2.1.length =
      posts.length ∧
    List.Forall₂
      (fun p q => q = { p with Content := q.Content } ∧ q.Content = p.Abstract ∧
        toRunes q.Content = (toRunes p.Content).take (min 128 (toRunes p.Content).length) ∧
        (toRunes q.Content).length = min 128 (toRunes p.Content).length)
      posts (GetPubFirstPage js none owner (SetPubFirstPage js none owner posts c).1).2.1 := by
  obtain ⟨b, hm, hu⟩ := hjs (abstractAll posts)
  have hset : SetPubFirstPage js none owner posts c =
      ((c.Set none (pubFirstKey owner) b 15).1, abstractAll posts, none) := by
    simp only [SetPubFirstPage, hm]
    rfl
  have hget : GetPubFirstPage js none owner (c.Set none (pubFirstKey owner) b 15).1 =
      (((c.Set none (pubFirstKey owner) b 15).1.Get none (pubFirstKey owner)).1,
        abstractAll posts, none) := by
    simp only [GetPubFirstPage, Redis.Get_Set, hu]
  rw [hset]
  simp only
  rw [hget]
  simp only
  refine ⟨trivial, trivial, ?_, ?_⟩
  · rw [abstractAll_eq_map, List.length_map]
  · rw [abstractAll_eq_map, List.forall₂_map_right_iff]
    apply List.forall₂_same.mpr
    intro p _
    exact ⟨rfl, rfl, (toRunes_Abstract_min p).1, (toRunes_Abstract_min p).2⟩

theorem toRunes_replicate_ascii (a : Fin 256) (h : a.val < 0x80) (k : Nat) :
    toRunes (List.replicate k a) = List.replicate k a.val := by
  induction k with
  | zero => rfl
  | succ k ih => rw [List.replicate_succ, toRunes_cons, if_pos h, ih, List.replicate_succ]

theorem fromRunes_replicate_ascii (a : Fin 256) (h : a.val < 0x80) (k : Nat) :
    fromRunes (List.replicate k a.val) = List.replicate k a := by
  induction k with
  | zero => rfl
  | succ k ih =>
    rw [List.replicate_succ, fromRunes_cons, ih, (encoderune_ascii a h).2, List.replicate_succ]
    rfl

theorem longPost_Abstract : longPost.Abstract = List.replicate 128 0x61 := by
  rw [Abstract_eq]
  have : longPost.Content = List.replicate 300 0x61 := rfl
  rw [this, toRunes_replicate_ascii _ (by decide), List.take_replicate,
    fromRunes_replicate_ascii _ (by decide)]
  rfl

/-- C8 at a concrete cache: a post with a body of 300 characters comes back with the other
fields as they were and a body of 128 characters. -/
theorem firstPage_roundtrip_witness :
    (GetPubFirstPage idJSON none 42
        (SetPubFirstPage idJSON none 42 [longPost] bothPages).1).2.2 = none ∧
    (GetPubFirstPage idJSON none 42
        (SetPubFirstPage idJSON none 42 [longPost] bothPages).1).2.1 =
      [{ longPost with Content := List.replicate 128 0x61 }] :=
  have h := firstPage_roundtrip idJSON (fun ps => ⟨ps, rfl, rfl⟩) 42 [longPost] bothPages
  ⟨h.2.1, by
    have h4 := h.2.2.2
    rcases hres : (GetPubFirstPage idJSON none 42
        (SetPubFirstPage idJSON none 42 [longPost] bothPages).1).2.1 with _ | ⟨q, qs⟩
    · rw [hres] at h4; cases h4
    · rw [hres] at h4
      cases h4 with
      | cons hq hqs =>
        cases hqs
        rw [hq.1, hq.2.1, longPost_Abstract]⟩

/-! ## C9: `DelFirstPage` -/

/-- C9, as stated, fails: when the deletion of `post:first:42` fails, `DelFirstPage` returns
that error having sent a single command; the deletion of `post:pub:first:42` is not
attempted and the public entry is still in the cache. -/
theorem DelFirstPage_counterexample :
    (DelFirstPage (some 1) none 42 bothPages).2 = some (CacheError.redis 1) ∧
    (DelFirstPage (some 1) none 42 bothPages).1.log = [Cmd.del (firstKey 42)] ∧
    Cmd.del (pubFirstKey 42) ∉ (DelFirstPage (some 1) none 42 bothPages).1.log ∧
    ((DelFirstPage (some 1) none 42 bothPages).1.Get none (pubFirstKey 42)).2 =
      Except.ok [Post.zero] := by
  refine ⟨by decide, by decide, by decide, rfl⟩

/-- C9, amended. `DelFirstPage(owner)` deletes `post:first:{owner}` first. If that deletion
fails, it returns that error at once: no second command is sent and the entries are as
they were. Otherwise it goes on to delete `post:pub:first:{owner}`. It returns an error if
and only if a deletion it attempted failed, and when it returns `nil` neither key is left
in the cache. -/
theorem DelFirstPage_sequential {β : Type} (f1 f2 : Fault) (postId : Nat) (c : Redis β) :
    (∀ code, f1 = some code →
      (DelFirstPage f1 f2 postId c).2 = some (CacheError.redis code) ∧
      (DelFirstPage f1 f2 postId c).1.log = c.log ++ [Cmd.del (firstKey postId)] ∧
      (DelFirstPage f1 f2 postId c).1.store = c.store) ∧
    (f1 = none →
      (DelFirstPage f1 f2 postId c).1.log =
        c.log ++ [Cmd.del (firstKey postId), Cmd.del (pubFirstKey postId)]) ∧
    ((DelFirstPage f1 f2 postId c).2 ≠ none ↔ (f1 ≠ none ∨ (f1 = none ∧ f2 ≠ none))) ∧
    ((DelFirstPage f1 f2 postId c).2 = none →
      ∀ e ∈ (DelFirstPage f1 f2 postId c).1.store,
        e.1 ≠ firstKey postId ∧ e.1 ≠ pubFirstKey postId) := by
  cases f1 with
  | some c1 =>
    refine ⟨?_, ?_, ?_, ?_⟩
    · intro code h
      cases h
      exact ⟨rfl, rfl, rfl⟩
    · intro h; cases h
    · simp [DelFirstPage, Redis.Del]
    · simp [DelFirstPage, Redis.Del]
  | none =>
    cases f2 with
    | some c2 =>
      refine ⟨?_, ?_, ?_, ?_⟩
      · intro code h; cases h
      · intro _; simp [DelFirstPage, Redis.Del]
      · simp [DelFirstPage, Redis.Del]
      · simp [DelFirstPage, Redis.Del]
    | none =>
      refine ⟨?_, ?_, ?_, ?_⟩
      · intro code h; cases h
      · intro _; simp [DelFirstPage, Redis.Del]
      · simp [DelFirstPage, Redis.Del]
      · intro _ e he
        simp only [DelFirstPage, Redis.Del, List.mem_filter, decide_eq_true_eq] at he
        exact ⟨he.1.2, he.2⟩

/-- C9 amended, at a concrete cache: both deletions succeed. -/
theorem DelFirstPage_sequential_witness :
    (DelFirstPage none none 42 bothPages).1.log =
        bothPages.log ++ [Cmd.del (firstKey 42), Cmd.del (pubFirstKey 42)] ∧
    ∀ e ∈ (DelFirstPage none none 42 bothPages).1.store,
      e.1 ≠ firstKey 42 ∧ e.1 ≠ pubFirstKey 42 :=
  have h := DelFirstPage_sequential none none 42 bothPages
  ⟨h.2.1 rfl, h.2.2.2 rfl⟩

/-! ## C10: the CORS origin predicate -/

theorem HasPrefix_nil (s : GoString) : HasPrefix s [] = true := by
  simp [HasPrefix]

theorem Contains_nil (s : GoString) : Contains s [] = true := by
  cases s with
  | nil => simp [Contains, Index, indexFrom]
  | cons b rest => simp [Contains, Index, indexFrom, HasPrefix_nil]

/-- C10. The configuration allows credentials, and its `AllowOriginFunc` returns `true` for
every origin string: an origin without the prefix `http://localhost` falls through to
`strings.Contains(origin, "")`, which holds for every string. So an origin that does not
start with `http://localhost` is accepted as well. -/
theorem AllowOriginFunc_always :
    corsConfig.AllowCredentials = true ∧
    (∀ origin : GoString, corsConfig.AllowOriginFunc origin = true) ∧
    (∀ origin : GoString, Contains origin (lit "") = true) ∧
    HasPrefix (lit "https://evil.example") (lit "http://localhost") = false ∧
    corsConfig.AllowOriginFunc (lit "https://evil.example") = true := by
  have hlit : lit "" = [] := rfl
  have hall : ∀ origin : GoString, AllowOriginFunc origin = true := by
    intro origin
    unfold AllowOriginFunc
    by_cases h : HasPrefix origin (lit "http://localhost") = true
    · rw [if_pos h]
    · rw [if_neg h, hlit, Contains_nil]
  refine ⟨rfl, hall, ?_, by decide, hall (lit "https://evil.example")⟩
  intro origin
  rw [hlit, Contains_nil]

end LinkMe
